import Mathlib

/-!
# bitmex-api: the WebSocket client of `lib/include/bitmex/bitmex.hpp`

A shallow embedding of `bitmex::websocket` and of the part of RapidJSON that
`Client::parse_msg` runs through (`Document::Parse` with the default parse flags,
`FindMember`, the `Is*`/`Get*` accessors), followed by the properties of the
subscription encoder and of the message decoder.

Conventions of the embedding

* `std::string` is `String`; a `const char*` is the text up to the first NUL
  (`c_str`). Texts are sequences of Unicode scalar values: RapidJSON copies the bytes
  of a UTF-8 text unchanged, so nothing is lost for UTF-8 input.
* A callback is a state transformer on the state `σ` of its environment;
  `std::function` may be empty (`none`). Callbacks that throw are not modelled.
* A violated `RAPIDJSON_ASSERT` (by default `assert`, otherwise undefined behaviour)
  and a call of an empty `std::function` end the run; `Outcome.status` records which.
* A binary64 number is kept as the decimal `d × 10^p` that `ParseNumber` hands to
  `StrtodNormalPrecision`; rounding to binary64 is not modelled, and comparisons of
  doubles inside `ParseNumber` are carried out on the exact values.
* The reader recurses on an explicit fuel; `Document.Parse` supplies enough of it
  (`rapidjson.ParseValue_fuel`), so the fuel never runs out. The machine stack is
  taken to be unbounded.
-/

namespace bitmex.websocket

/-- BitMEX subscription topic (`enum class Topic : uint8_t`). -/
inductive Topic
  | Announcement
  | Chat
  | Connected
  | Funding
  | Instrument
  | Insurance
  | Liquidation
  | OrderBookL2_25
  | OrderBookL2
  | OrderBook10
  | PublicNotifications
  | Quote
  | QuoteBin1m
  | QuoteBin5m
  | QuoteBin1h
  | QuoteBin1d
  | Settlement
  | Trade
  | TradeBin1m
  | TradeBin5m
  | TradeBin1h
  | TradeBin1d
  deriving DecidableEq

/-- The switch of `to_string(Topic)`: one `case` per enumerator; the match has no
default branch, as the switch has none. -/
def to_string (topic : Topic) : String :=
  match topic with
  | Topic.Announcement => "announcement"
  | Topic.Chat => "chat"
  | Topic.Connected => "connected"
  | Topic.Funding => "funding"
  | Topic.Instrument => "instrument"
  | Topic.Insurance => "insurance"
  | Topic.Liquidation => "liquidation"
  | Topic.OrderBookL2_25 => "orderBookL2_25"
  | Topic.OrderBookL2 => "orderBookL2"
  | Topic.OrderBook10 => "orderBook10"
  | Topic.PublicNotifications => "publicNotifications"
  | Topic.Quote => "quote"
  | Topic.QuoteBin1m => "quoteBin1m"
  | Topic.QuoteBin5m => "quoteBin5m"
  | Topic.QuoteBin1h => "quoteBin1h"
  | Topic.QuoteBin1d => "quoteBin1d"
  | Topic.Settlement => "settlement"
  | Topic.Trade => "trade"
  | Topic.TradeBin1m => "tradeBin1m"
  | Topic.TradeBin5m => "tradeBin5m"
  | Topic.TradeBin1h => "tradeBin1h"
  | Topic.TradeBin1d => "tradeBin1d"

/-- The value of an enumerator in the underlying type `uint8_t`: its position in the
declaration of `Topic`. -/
def Topic.underlying : Topic → Nat
  | Topic.Announcement => 0
  | Topic.Chat => 1
  | Topic.Connected => 2
  | Topic.Funding => 3
  | Topic.Instrument => 4
  | Topic.Insurance => 5
  | Topic.Liquidation => 6
  | Topic.OrderBookL2_25 => 7
  | Topic.OrderBookL2 => 8
  | Topic.OrderBook10 => 9
  | Topic.PublicNotifications => 10
  | Topic.Quote => 11
  | Topic.QuoteBin1m => 12
  | Topic.QuoteBin5m => 13
  | Topic.QuoteBin1h => 14
  | Topic.QuoteBin1d => 15
  | Topic.Settlement => 16
  | Topic.Trade => 17
  | Topic.TradeBin1m => 18
  | Topic.TradeBin5m => 19
  | Topic.TradeBin1h => 20
  | Topic.TradeBin1d => 21

/-- The body of `to_string` on a value of the underlying type: the `switch` with its 22
case labels; `none` is control leaving the `switch` for `__builtin_unreachable()`. -/
def to_string.switch (value : Nat) : Option String :=
  match value with
  | 0 => some "announcement"
  | 1 => some "chat"
  | 2 => some "connected"
  | 3 => some "funding"
  | 4 => some "instrument"
  | 5 => some "insurance"
  | 6 => some "liquidation"
  | 7 => some "orderBookL2_25"
  | 8 => some "orderBookL2"
  | 9 => some "orderBook10"
  | 10 => some "publicNotifications"
  | 11 => some "quote"
  | 12 => some "quoteBin1m"
  | 13 => some "quoteBin5m"
  | 14 => some "quoteBin1h"
  | 15 => some "quoteBin1d"
  | 16 => some "settlement"
  | 17 => some "trade"
  | 18 => some "tradeBin1m"
  | 19 => some "tradeBin5m"
  | 20 => some "tradeBin1h"
  | 21 => some "tradeBin1d"
  | _ => none

/-- The member function `Client::make_subscribe`: the four-fold `std::string` concatenation
`"{\"op\":\"subscribe\",\"args\":[\"" + to_string(topic) + ":" + instrument + "\"]}"`. -/
def make_subscribe (instrument : String) (topic : Topic) : String :=
  "\x7b\"op\":\"subscribe\",\"args\":[\"" ++ to_string topic ++ ":" ++ instrument ++ "\"]\x7d"

end bitmex.websocket

namespace rapidjson

/-- Codes of `ParseErrorCode` that `GenericReader::Parse` reports with the default
parse flags. -/
inductive ParseErrorCode
  | kParseErrorDocumentEmpty
  | kParseErrorDocumentRootNotSingular
  | kParseErrorValueInvalid
  | kParseErrorObjectMissName
  | kParseErrorObjectMissColon
  | kParseErrorObjectMissCommaOrCurlyBracket
  | kParseErrorArrayMissCommaOrSquareBracket
  | kParseErrorStringUnicodeEscapeInvalidHex
  | kParseErrorStringUnicodeSurrogateInvalid
  | kParseErrorStringEscapeInvalid
  | kParseErrorStringMissQuotationMark
  | kParseErrorStringInvalidEncoding
  | kParseErrorNumberTooBig
  | kParseErrorNumberMissFraction
  | kParseErrorNumberMissExponent
  deriving DecidableEq

/-- A `double`, kept as the decimal `(-1)^minus × d × 10^p` it is converted from. -/
structure Double where
  minus : Bool
  d : Nat
  p : Int
  deriving DecidableEq

/-- The rational number a `Double` stands for. -/
def Double.value (x : Double) : ℚ :=
  (if x.minus then -1 else 1) * (x.d : ℚ) * (10 : ℚ) ^ x.p

/-- The number a `GenericValue` of `kNumberType` stores; one constructor per handler
event of the reader (`Int`, `Uint`, `Int64`, `Uint64`, `Double`). -/
inductive Number
  | int (i : Int)
  | uint (u : Nat)
  | int64 (i : Int)
  | uint64 (u : Nat)
  | double (d : Double)
  deriving DecidableEq

/-- A `GenericValue`: one constructor per `rapidjson::Type`. The name of a member is a
string, and members keep the order and the duplicates of the text. -/
inductive Value
  | kNullType
  | kFalseType
  | kTrueType
  | kObjectType (members : List (String × Value))
  | kArrayType (elements : List Value)
  | kStringType (s : String)
  | kNumberType (n : Number)

/-- What a routine of the reader hands back: the item it read and the rest of the
stream, or the parse error it raised. `starved` is the embedding running out of fuel. -/
inductive Parsed (α : Type)
  | ok (a : α) (rest : List Char)
  | error (code : ParseErrorCode)
  | starved

/-- The result of an accessor guarded by `RAPIDJSON_ASSERT`. -/
inductive Checked (α : Type)
  | value (a : α)
  | assertion_failed

/-- The routine `SkipWhitespace`: skip space, line feed, carriage return and tab. -/
def SkipWhitespace : List Char → List Char
  | [] => []
  | c :: s => if c = ' ' ∨ c = '\n' ∨ c = '\r' ∨ c = '\t' then SkipWhitespace s else c :: s

/-- One round of the loop of `ParseHex4`: the value of a hexadecimal digit. -/
def hexDigit (c : Char) : Option Nat :=
  if '0' ≤ c ∧ c ≤ '9' then some (c.toNat - '0'.toNat)
  else if 'A' ≤ c ∧ c ≤ 'F' then some (c.toNat - ('A'.toNat - 10))
  else if 'a' ≤ c ∧ c ≤ 'f' then some (c.toNat - ('a'.toNat - 10))
  else none

/-- The routine `ParseHex4` on the next four characters: the code point of four
hexadecimal digits, most significant first; `none` is
`kParseErrorStringUnicodeEscapeInvalidHex`. -/
def ParseHex4 (a b c d : Char) : Option Nat :=
  match hexDigit a, hexDigit b, hexDigit c, hexDigit d with
  | some x, some y, some z, some w => some (((x * 16 + y) * 16 + z) * 16 + w)
  | _, _, _, _ => none

/-- The `escape` table of `ParseStringToStream`: quotation mark, solidus, reverse
solidus, and the letters b, f, n, r, t. -/
def escape (e : Char) : Option Char :=
  if e = '\x22' then some '\x22'
  else if e = '/' then some '/'
  else if e = '\x5c' then some '\x5c'
  else if e = 'b' then some '\x08'
  else if e = 'f' then some '\x0c'
  else if e = 'n' then some '\n'
  else if e = 'r' then some '\r'
  else if e = 't' then some '\t'
  else none

/-- What one round of the `for (;;)` of `ParseStringToStream` does: put a character to
the output, end at the closing quotation mark, or raise a parse error. -/
inductive Round
  | put (c : Char) (rest : List Char)
  | close (rest : List Char)
  | fail (code : ParseErrorCode)

/-- In `ParseStringToStream`, the escape `\u`, entered after the `u`: four hexadecimal
digits give a code point; a high surrogate must be followed by `\u` and a low surrogate,
and the pair gives one code point; a low surrogate alone is an error. -/
def ParseStringToStream.unicode : List Char → Round
  | h1 :: h2 :: h3 :: h4 :: s2 =>
    match ParseHex4 h1 h2 h3 h4 with
    | none => Round.fail ParseErrorCode.kParseErrorStringUnicodeEscapeInvalidHex
    | some codepoint =>
      if 0xD800 ≤ codepoint ∧ codepoint ≤ 0xDFFF then
        if codepoint ≤ 0xDBFF then
          match s2 with
          | '\x5c' :: 'u' :: l1 :: l2 :: l3 :: l4 :: s3 =>
            match ParseHex4 l1 l2 l3 l4 with
            | none => Round.fail ParseErrorCode.kParseErrorStringUnicodeEscapeInvalidHex
            | some codepoint2 =>
              if codepoint2 < 0xDC00 ∨ codepoint2 > 0xDFFF then
                Round.fail ParseErrorCode.kParseErrorStringUnicodeSurrogateInvalid
              else
                Round.put
                  (Char.ofNat ((codepoint - 0xD800) * 1024 + (codepoint2 - 0xDC00) + 0x10000))
                  s3
          | '\x5c' :: 'u' :: _ =>
            Round.fail ParseErrorCode.kParseErrorStringUnicodeEscapeInvalidHex
          | _ => Round.fail ParseErrorCode.kParseErrorStringUnicodeSurrogateInvalid
        else Round.fail ParseErrorCode.kParseErrorStringUnicodeSurrogateInvalid
      else Round.put (Char.ofNat codepoint) s2
  | _ => Round.fail ParseErrorCode.kParseErrorStringUnicodeEscapeInvalidHex

/-- In `ParseStringToStream`, one round of the `for (;;)`: an escape after a reverse
solidus, the closing quotation mark, a control character (an error), or any other
character, which is copied. -/
def ParseStringToStream.round : List Char → Round
  | [] => Round.fail ParseErrorCode.kParseErrorStringMissQuotationMark
  | c :: s =>
    if c = '\x5c' then
      match s with
      | [] => Round.fail ParseErrorCode.kParseErrorStringEscapeInvalid
      | e :: s1 =>
        match escape e with
        | some x => Round.put x s1
        | none =>
          if e = 'u' then ParseStringToStream.unicode s1
          else Round.fail ParseErrorCode.kParseErrorStringEscapeInvalid
    else if c = '\x22' then Round.close s
    else if c.toNat < 0x20 then
      if c = '\x00' then Round.fail ParseErrorCode.kParseErrorStringMissQuotationMark
      else Round.fail ParseErrorCode.kParseErrorStringInvalidEncoding
    else Round.put c s

/-- The routine `ParseStringToStream`, entered after the opening quotation mark: the
rounds of its `for (;;)`, each taking one unit of fuel; `os` is the output collected so
far. -/
def ParseStringToStream : Nat → List Char → List Char → Parsed String
  | 0, _, _ => Parsed.starved
  | fuel + 1, os, s =>
    match ParseStringToStream.round s with
    | Round.put c rest => ParseStringToStream fuel (os ++ [c]) rest
    | Round.close rest => Parsed.ok (String.mk os) rest
    | Round.fail code => Parsed.error code

/-- The value of a decimal digit, `c - '0'`. -/
def digit (c : Char) : Nat := c.toNat - '0'.toNat

/-- The conversion `static_cast<int32_t>` of an unsigned value. -/
def toInt32 (u : Nat) : Int :=
  if u % 2 ^ 32 < 2 ^ 31 then (u % 2 ^ 32 : Nat) else ((u % 2 ^ 32 : Nat) : Int) - 2 ^ 32

/-- The conversion `static_cast<int64_t>` of an unsigned value. -/
def toInt64 (u : Nat) : Int :=
  if u % 2 ^ 64 < 2 ^ 63 then (u % 2 ^ 64 : Nat) else ((u % 2 ^ 64 : Nat) : Int) - 2 ^ 64

/-- In `ParseNumber`, the digits after the first one, accumulated in the 32-bit `i`; the
loop stops with `use64bit` set before a digit that could overflow `i` (the bound is
2^31 after a minus sign, 2^32 - 1 otherwise). Returns `(i, use64bit, rest)`. -/
def ParseNumber.loop32 (minus : Bool) (i : Nat) : List Char → Nat × Bool × List Char
  | [] => (i, false, [])
  | c :: s =>
    if '0' ≤ c ∧ c ≤ '9' then
      if minus then
        if i ≥ 214748364 ∧ (i ≠ 214748364 ∨ c > '8') then (i, true, c :: s)
        else ParseNumber.loop32 minus ((i * 10 + digit c) % 2 ^ 32) s
      else
        if i ≥ 429496729 ∧ (i ≠ 429496729 ∨ c > '5') then (i, true, c :: s)
        else ParseNumber.loop32 minus ((i * 10 + digit c) % 2 ^ 32) s
    else (i, false, c :: s)

/-- In `ParseNumber`, the digits accumulated in the 64-bit `i64`; the loop stops with
`useDouble` set before a digit that could overflow `i64` (the bound is 2^63 after a minus
sign, 2^64 - 1 otherwise). Returns `(i64, useDouble, rest)`. -/
def ParseNumber.loop64 (minus : Bool) (i64 : Nat) : List Char → Nat × Bool × List Char
  | [] => (i64, false, [])
  | c :: s =>
    if '0' ≤ c ∧ c ≤ '9' then
      if minus then
        if i64 ≥ 0x0CCCCCCCCCCCCCCC ∧ (i64 ≠ 0x0CCCCCCCCCCCCCCC ∨ c > '8') then
          (i64, true, c :: s)
        else ParseNumber.loop64 minus ((i64 * 10 + digit c) % 2 ^ 64) s
      else
        if i64 ≥ 0x1999999999999999 ∧ (i64 ≠ 0x1999999999999999 ∨ c > '5') then
          (i64, true, c :: s)
        else ParseNumber.loop64 minus ((i64 * 10 + digit c) % 2 ^ 64) s
    else (i64, false, c :: s)

/-- The constant `1.7976931348623157e307` of `ParseNumber`. -/
def DBL_MAX_DIV_10 : Nat :=
  17976931348623157000000000000000000000000000000000000000000000000000000000000000000000000000000000000000000000000000000000000000000000000000000000000000000000000000000000000000000000000000000000000000000000000000000000000000000000000000000000000000000000000000000000000000000000000000000000000000000000000000

/-- The constant `DBL_MAX`, `(2^53 - 1) × 2^971`. -/
def DBL_MAX : Nat :=
  179769313486231570814527423731704356798070567525844996598917476803157260780028538760589558632766878171540458953514382464234321326889464182768467546703537516986049910576551282076245490090389328944075868508455133942304583236903222948165808559332123348274797826204144723168738177180919299881250404026184124858368

/-- In `ParseNumber`, the remaining integer digits of a number forced to `double`; `none`
is `kParseErrorNumberTooBig`, raised when `d >= 1.7976931348623157e307` before a digit. -/
def ParseNumber.loopDouble (d : Nat) : List Char → Option (Nat × List Char)
  | [] => some (d, [])
  | c :: s =>
    if '0' ≤ c ∧ c ≤ '9' then
      if d ≥ DBL_MAX_DIV_10 then none
      else ParseNumber.loopDouble (d * 10 + digit c) s
    else some (d, c :: s)

/-- In `ParseNumber`, the digits of the fraction: each one extends the significand and
lowers `expFrac`. Returns `(d, expFrac, rest)`. -/
def ParseNumber.loopFrac (d : Nat) (expFrac : Int) : List Char → Nat × Int × List Char
  | [] => (d, expFrac, [])
  | c :: s =>
    if '0' ≤ c ∧ c ≤ '9' then ParseNumber.loopFrac (d * 10 + digit c) (expFrac - 1) s
    else (d, expFrac, c :: s)

/-- In `ParseNumber`, the inner loop of a negative exponent: consume the rest of the
exponent. -/
def ParseNumber.skipDigits : List Char → List Char
  | [] => []
  | c :: s => if '0' ≤ c ∧ c ≤ '9' then ParseNumber.skipDigits s else c :: s

/-- In `ParseNumber`, the digits of a negative exponent after the first: once `exp`
passes `maxExp` the remaining digits are consumed without effect. Returns `(exp, rest)`. -/
def ParseNumber.loopExpMinus (maxExp : Int) (exp : Int) : List Char → Int × List Char
  | [] => (exp, [])
  | c :: s =>
    if '0' ≤ c ∧ c ≤ '9' then
      if exp * 10 + digit c > maxExp then (exp * 10 + digit c, ParseNumber.skipDigits s)
      else ParseNumber.loopExpMinus maxExp (exp * 10 + digit c) s
    else (exp, c :: s)

/-- In `ParseNumber`, the digits of a positive exponent after the first; `none` is
`kParseErrorNumberTooBig`, raised when `exp > maxExp`. Returns `(exp, rest)`. -/
def ParseNumber.loopExpPlus (maxExp : Int) (exp : Int) : List Char → Option (Int × List Char)
  | [] => some (exp, [])
  | c :: s =>
    if '0' ≤ c ∧ c ≤ '9' then
      if exp * 10 + digit c > maxExp then none
      else ParseNumber.loopExpPlus maxExp (exp * 10 + digit c) s
    else some (exp, c :: s)

/-- In `ParseNumber`, the overflow test `d > DBL_MAX` on the result `d × 10^p` of
`StrtodNormalPrecision`. -/
def ParseNumber.tooBig (d : Nat) (p : Int) : Bool :=
  if 0 ≤ p then decide (d * 10 ^ p.toNat > DBL_MAX)
  else decide (d > DBL_MAX * 10 ^ (-p).toNat)

/-- In `ParseNumber`, the end of a number stored as `double`: with `p = exp + expFrac`
the value `d × 10^p` must not exceed `DBL_MAX`. -/
def ParseNumber.done (minus : Bool) (d : Nat) (expFrac exp : Int) (rest : List Char) :
    Parsed Number :=
  if ParseNumber.tooBig d (exp + expFrac) then
    Parsed.error ParseErrorCode.kParseErrorNumberTooBig
  else Parsed.ok (Number.double ⟨minus, d, exp + expFrac⟩) rest

/-- In `ParseNumber`, the digits of the exponent, of which there must be one at least;
`expMinus` says that a minus sign came before them. -/
def ParseNumber.exponentDigits (minus : Bool) (d : Nat) (expFrac : Int) (expMinus : Bool) :
    List Char → Parsed Number
  | [] => Parsed.error ParseErrorCode.kParseErrorNumberMissExponent
  | c :: s =>
    if '0' ≤ c ∧ c ≤ '9' then
      if expMinus then
        match ParseNumber.loopExpMinus ((expFrac + 2147483639) / 10) (digit c) s with
        | (exp, rest) => ParseNumber.done minus d expFrac (-exp) rest
      else
        match ParseNumber.loopExpPlus (308 - expFrac) (digit c) s with
        | some (exp, rest) => ParseNumber.done minus d expFrac exp rest
        | none => Parsed.error ParseErrorCode.kParseErrorNumberTooBig
    else Parsed.error ParseErrorCode.kParseErrorNumberMissExponent

/-- In `ParseNumber`, the exponent after `e` or `E`: an optional sign, then the digits. -/
def ParseNumber.exponent (minus : Bool) (d : Nat) (expFrac : Int) (s : List Char) :
    Parsed Number :=
  match s with
  | '+' :: s1 => ParseNumber.exponentDigits minus d expFrac false s1
  | '-' :: s1 => ParseNumber.exponentDigits minus d expFrac true s1
  | _ => ParseNumber.exponentDigits minus d expFrac false s

/-- In `ParseNumber`, what follows the significand `d` of a number stored as `double`:
the exponent part, if any, and the overflow test. -/
def ParseNumber.finishDouble (minus : Bool) (d : Nat) (expFrac : Int) (s : List Char) :
    Parsed Number :=
  match s with
  | 'e' :: s1 => ParseNumber.exponent minus d expFrac s1
  | 'E' :: s1 => ParseNumber.exponent minus d expFrac s1
  | _ => ParseNumber.done minus d expFrac 0 s

/-- In `ParseNumber`, from the fraction on: `n` is the integer part read so far,
`use64bit` and `useDouble` say in which variable the source holds it. A fraction or an
exponent makes the number a `double`; otherwise the handler event is `Int` or `Uint`
for `i`, `Int64` or `Uint64` for `i64`. -/
def ParseNumber.tail (minus : Bool) (n : Nat) (use64bit useDouble : Bool) (s : List Char) :
    Parsed Number :=
  match s with
  | '.' :: s1 =>
    match s1 with
    | [] => Parsed.error ParseErrorCode.kParseErrorNumberMissFraction
    | c :: _ =>
      if '0' ≤ c ∧ c ≤ '9' then
        match ParseNumber.loopFrac n 0 s1 with
        | (d, expFrac, rest) => ParseNumber.finishDouble minus d expFrac rest
      else Parsed.error ParseErrorCode.kParseErrorNumberMissFraction
  | 'e' :: _ => ParseNumber.finishDouble minus n 0 s
  | 'E' :: _ => ParseNumber.finishDouble minus n 0 s
  | _ =>
    if useDouble then ParseNumber.finishDouble minus n 0 s
    else if use64bit then
      if minus then Parsed.ok (Number.int64 (toInt64 (2 ^ 64 - 1 - n + 1))) s
      else Parsed.ok (Number.uint64 n) s
    else
      if minus then Parsed.ok (Number.int (toInt32 (2 ^ 32 - 1 - n + 1))) s
      else Parsed.ok (Number.uint n) s

/-- The routine `ParseNumber` after the sign: the integer part (held in `i`, then `i64`,
then `d`), then the rest. -/
def ParseNumber.unsigned (minus : Bool) : List Char → Parsed Number
  | [] => Parsed.error ParseErrorCode.kParseErrorValueInvalid
  | c :: s1 =>
    if c = '0' then ParseNumber.tail minus 0 false false s1
    else if '1' ≤ c ∧ c ≤ '9' then
      match ParseNumber.loop32 minus (digit c) s1 with
      | (i, false, s2) => ParseNumber.tail minus i false false s2
      | (i, true, s2) =>
        match ParseNumber.loop64 minus i s2 with
        | (i64, false, s3) => ParseNumber.tail minus i64 true false s3
        | (i64, true, s3) =>
          match ParseNumber.loopDouble i64 s3 with
          | some (d, s4) => ParseNumber.tail minus d true true s4
          | none => Parsed.error ParseErrorCode.kParseErrorNumberTooBig
    else Parsed.error ParseErrorCode.kParseErrorValueInvalid

/-- The routine `ParseNumber`: an optional minus sign, then the number. -/
def ParseNumber (s : List Char) : Parsed Number :=
  match s with
  | '-' :: s0 => ParseNumber.unsigned true s0
  | _ => ParseNumber.unsigned false s

/-- The routine `ParseNull`, entered after the `n`. -/
def ParseNull : List Char → Parsed Value
  | 'u' :: 'l' :: 'l' :: rest => Parsed.ok Value.kNullType rest
  | _ => Parsed.error ParseErrorCode.kParseErrorValueInvalid

/-- The routine `ParseTrue`, entered after the `t`. -/
def ParseTrue : List Char → Parsed Value
  | 'r' :: 'u' :: 'e' :: rest => Parsed.ok Value.kTrueType rest
  | _ => Parsed.error ParseErrorCode.kParseErrorValueInvalid

/-- The routine `ParseFalse`, entered after the `f`. -/
def ParseFalse : List Char → Parsed Value
  | 'a' :: 'l' :: 's' :: 'e' :: rest => Parsed.ok Value.kFalseType rest
  | _ => Parsed.error ParseErrorCode.kParseErrorValueInvalid

/-- The routine `ParseString` for a value, entered after the opening quotation mark. -/
def ParseString (fuel : Nat) (s : List Char) : Parsed Value :=
  match ParseStringToStream fuel [] s with
  | Parsed.ok str rest => Parsed.ok (Value.kStringType str) rest
  | Parsed.error code => Parsed.error code
  | Parsed.starved => Parsed.starved

/-- The default branch of `ParseValue`: a number. -/
def ParseValue.number (s : List Char) : Parsed Value :=
  match ParseNumber s with
  | Parsed.ok n rest => Parsed.ok (Value.kNumberType n) rest
  | Parsed.error code => Parsed.error code
  | Parsed.starved => Parsed.starved

mutual

/-- The routine `ParseValue`: dispatch on the next character to `ParseNull`, `ParseTrue`,
`ParseFalse`, `ParseString`, `ParseObject`, `ParseArray` or, by default, `ParseNumber`.
An object or an array that closes right after its opening bracket is empty. -/
def ParseValue : Nat → List Char → Parsed Value
  | 0, _ => Parsed.starved
  | fuel + 1, s =>
    match s with
    | 'n' :: s1 => ParseNull s1
    | 't' :: s1 => ParseTrue s1
    | 'f' :: s1 => ParseFalse s1
    | '\x22' :: s1 => ParseString fuel s1
    | '\x7b' :: s1 =>
      match SkipWhitespace s1 with
      | '\x7d' :: rest => Parsed.ok (Value.kObjectType []) rest
      | s2 => ParseObject.loop fuel [] s2
    | '[' :: s1 =>
      match SkipWhitespace s1 with
      | ']' :: rest => Parsed.ok (Value.kArrayType []) rest
      | s2 => ParseArray.loop fuel [] s2
    | _ => ParseValue.number s

/-- The `for (;;)` of `ParseObject`, one member per round: a name, a colon, a value, then
a comma or the closing bracket. `members` are the members read so far. -/
def ParseObject.loop : Nat → List (String × Value) → List Char → Parsed Value
  | 0, _, _ => Parsed.starved
  | fuel + 1, members, s =>
    match s with
    | '\x22' :: s1 =>
      match ParseStringToStream fuel [] s1 with
      | Parsed.ok name s2 =>
        match SkipWhitespace s2 with
        | ':' :: s3 =>
          match ParseValue fuel (SkipWhitespace s3) with
          | Parsed.ok value s4 =>
            match SkipWhitespace s4 with
            | ',' :: s5 => ParseObject.loop fuel (members ++ [(name, value)]) (SkipWhitespace s5)
            | '\x7d' :: rest => Parsed.ok (Value.kObjectType (members ++ [(name, value)])) rest
            | _ => Parsed.error ParseErrorCode.kParseErrorObjectMissCommaOrCurlyBracket
          | Parsed.error code => Parsed.error code
          | Parsed.starved => Parsed.starved
        | _ => Parsed.error ParseErrorCode.kParseErrorObjectMissColon
      | Parsed.error code => Parsed.error code
      | Parsed.starved => Parsed.starved
    | _ => Parsed.error ParseErrorCode.kParseErrorObjectMissName

/-- The `for (;;)` of `ParseArray`, one element per round: a value, then a comma or the
closing bracket. `elements` are the elements read so far. -/
def ParseArray.loop : Nat → List Value → List Char → Parsed Value
  | 0, _, _ => Parsed.starved
  | fuel + 1, elements, s =>
    match ParseValue fuel s with
    | Parsed.ok value s1 =>
      match SkipWhitespace s1 with
      | ',' :: s2 => ParseArray.loop fuel (elements ++ [value]) (SkipWhitespace s2)
      | ']' :: rest => Parsed.ok (Value.kArrayType (elements ++ [value])) rest
      | _ => Parsed.error ParseErrorCode.kParseErrorArrayMissCommaOrSquareBracket
    | Parsed.error code => Parsed.error code
    | Parsed.starved => Parsed.starved

end

/-- The routine `GenericReader::Parse` on a stream, with the fuel given: skip whitespace,
parse one value, skip whitespace, and require the end of the stream. -/
def Reader.Parse (fuel : Nat) (s : List Char) : Parsed Value :=
  match SkipWhitespace s with
  | [] => Parsed.error ParseErrorCode.kParseErrorDocumentEmpty
  | s0 =>
    match ParseValue fuel s0 with
    | Parsed.ok value rest =>
      match SkipWhitespace rest with
      | [] => Parsed.ok value []
      | _ => Parsed.error ParseErrorCode.kParseErrorDocumentRootNotSingular
    | Parsed.error code => Parsed.error code
    | Parsed.starved => Parsed.starved

/-- The call `Document::Parse(str)`: the document read from the text `str`, or the code
of the parse error that `HasParseError()` reports. The fuel is enough for every text, so
the last case does not occur. -/
def Document.Parse (str : List Char) : Except ParseErrorCode Value :=
  match Reader.Parse (2 * str.length + 2) str with
  | Parsed.ok value _ => Except.ok value
  | Parsed.error code => Except.error code
  | Parsed.starved => Except.error ParseErrorCode.kParseErrorDocumentEmpty

/-- The test `IsObject()`. -/
def Value.IsObject : Value → Bool
  | Value.kObjectType _ => true
  | _ => false

/-- The test `IsArray()`. -/
def Value.IsArray : Value → Bool
  | Value.kArrayType _ => true
  | _ => false

/-- The test `IsString()`. -/
def Value.IsString : Value → Bool
  | Value.kStringType _ => true
  | _ => false

/-- The flag `kIntFlag` as the constructors of `GenericValue` set it: the stored integer
fits a signed 32-bit integer. -/
def Number.IsInt : Number → Bool
  | Number.int _ => true
  | Number.uint u => decide (u < 2 ^ 31)
  | Number.int64 i => decide (-2 ^ 31 ≤ i ∧ i < 2 ^ 31)
  | Number.uint64 u => decide (u < 2 ^ 31)
  | Number.double _ => false

/-- The test `IsInt()`. -/
def Value.IsInt : Value → Bool
  | Value.kNumberType n => n.IsInt
  | _ => false

/-- The test `IsDouble()`: `kDoubleFlag` is set by the `double` constructor only. -/
def Value.IsDouble : Value → Bool
  | Value.kNumberType (Number.double _) => true
  | _ => false

/-- The call `FindMember(name)`: asserts `IsObject()`, then yields the value of the first
member whose name equals `name`, or `none` for `MemberEnd()`. -/
def Value.FindMember (parent : Value) (name : String) : Checked (Option Value) :=
  match parent with
  | Value.kObjectType members => Checked.value (members.lookup name)
  | _ => Checked.assertion_failed

/-- The call `GetString()`: asserts `IsString()`. -/
def Value.GetString : Value → Checked String
  | Value.kStringType s => Checked.value s
  | _ => Checked.assertion_failed

/-- The call `GetInt()`: asserts `kIntFlag`, returns the stored `int`. -/
def Value.GetInt (v : Value) : Checked Int :=
  if v.IsInt then
    match v with
    | Value.kNumberType (Number.int i) => Checked.value i
    | Value.kNumberType (Number.uint u) => Checked.value (toInt32 u)
    | Value.kNumberType (Number.int64 i) => Checked.value i
    | Value.kNumberType (Number.uint64 u) => Checked.value (toInt32 u)
    | _ => Checked.assertion_failed
  else Checked.assertion_failed

/-- The call `GetDouble()` on a value that holds a `double`. -/
def Value.GetDouble : Value → Checked Double
  | Value.kNumberType (Number.double d) => Checked.value d
  | _ => Checked.assertion_failed

end rapidjson

namespace bitmex.websocket
open rapidjson

/-- The text that a `const char*` to the characters `s` denotes: up to the first NUL. -/
def c_str (s : List Char) : List Char := s.takeWhile (fun c => c ≠ '\x00')

/-- The arguments of one call of an `OnTradeCallback`. -/
structure Trade where
  instrument : String
  side : String
  size : Int
  price : Double
  deriving DecidableEq

/-- An `OnTradeCallback`, a `std::function`: empty, or a target that acts on the state
`σ` of its environment. -/
abbrev OnTradeCallback (σ : Type) := Option (Trade → σ → σ)

/-- The `class Client`: its only member is `_on_trade`, empty after default
construction. -/
structure Client (σ : Type) where
  _on_trade : OnTradeCallback σ := none

/-- How a run of `parse_msg` ends: by returning, by a violated `RAPIDJSON_ASSERT`, or
by the `std::bad_function_call` of an empty `std::function`. -/
inductive Status
  | returned
  | assertion_failed
  | bad_function_call
  deriving DecidableEq

/-- A run of `parse_msg`: the state the callbacks left the environment in, and how the
run ended. -/
structure Outcome (σ : Type) where
  env : σ
  status : Status

/-- The member function `Client::maybe_string`. -/
def maybe_string (parent : Value) (name : String) : Checked (Option String) :=
  match parent.FindMember name with
  | Checked.assertion_failed => Checked.assertion_failed
  | Checked.value none => Checked.value none
  | Checked.value (some child) =>
    if !child.IsString then Checked.value none
    else
      match child.GetString with
      | Checked.value s => Checked.value (some (String.mk (c_str s.data)))
      | Checked.assertion_failed => Checked.assertion_failed

/-- The member function `Client::maybe_int`. -/
def maybe_int (parent : Value) (name : String) : Checked (Option Int) :=
  match parent.FindMember name with
  | Checked.assertion_failed => Checked.assertion_failed
  | Checked.value none => Checked.value none
  | Checked.value (some child) =>
    if !child.IsInt then Checked.value none
    else
      match child.GetInt with
      | Checked.value i => Checked.value (some i)
      | Checked.assertion_failed => Checked.assertion_failed

/-- The member function `Client::maybe_double`. -/
def maybe_double (parent : Value) (name : String) : Checked (Option Double) :=
  match parent.FindMember name with
  | Checked.assertion_failed => Checked.assertion_failed
  | Checked.value none => Checked.value none
  | Checked.value (some child) =>
    if !child.IsDouble then Checked.value none
    else
      match child.GetDouble with
      | Checked.value d => Checked.value (some d)
      | Checked.assertion_failed => Checked.assertion_failed

/-- The `for` loop of `parse_msg` over the elements `data->value[i]`, run from the
environment state `env`; `continue` is the recursive call on the remaining elements. -/
def parse_msg.loop {σ : Type} (c : Client σ) : List Value → σ → Outcome σ
  | [], env => ⟨env, Status.returned⟩
  | element :: elements, env =>
    match maybe_string element "symbol" with
    | Checked.assertion_failed => ⟨env, Status.assertion_failed⟩
    | Checked.value none => parse_msg.loop c elements env
    | Checked.value (some symbol) =>
      match maybe_string element "side" with
      | Checked.assertion_failed => ⟨env, Status.assertion_failed⟩
      | Checked.value none => parse_msg.loop c elements env
      | Checked.value (some side) =>
        match maybe_int element "size" with
        | Checked.assertion_failed => ⟨env, Status.assertion_failed⟩
        | Checked.value none => parse_msg.loop c elements env
        | Checked.value (some size) =>
          match maybe_double element "price" with
          | Checked.assertion_failed => ⟨env, Status.assertion_failed⟩
          | Checked.value none => parse_msg.loop c elements env
          | Checked.value (some price) =>
            match c._on_trade with
            | none => ⟨env, Status.bad_function_call⟩
            | some target => parse_msg.loop c elements (target ⟨symbol, side, size, price⟩ env)

/-- The member function `Client::parse_msg`, run from the environment state `env`. -/
def Client.parse_msg {σ : Type} (c : Client σ) (msg : String) (env : σ) : Outcome σ :=
  match Document.Parse (c_str msg.data) with
  | Except.error _ => ⟨env, Status.returned⟩
  | Except.ok doc =>
    match doc.FindMember "table" with
    | Checked.assertion_failed => ⟨env, Status.assertion_failed⟩
    | Checked.value none => ⟨env, Status.returned⟩
    | Checked.value (some table) =>
      if !table.IsString then ⟨env, Status.returned⟩
      else
        match doc.FindMember "data" with
        | Checked.assertion_failed => ⟨env, Status.assertion_failed⟩
        | Checked.value none => ⟨env, Status.returned⟩
        | Checked.value (some data) =>
          if !data.IsArray then ⟨env, Status.returned⟩
          else
            match data with
            | Value.kArrayType elements => parse_msg.loop c elements env
            | _ => ⟨env, Status.assertion_failed⟩

/-- The four extractions of one round of the loop of `parse_msg`, in the order of the
source: the arguments of the call the round makes, `none` when the round ends in
`continue`, or the assertion failure that ends the run. -/
def extract (element : Value) : Checked (Option Trade) :=
  match maybe_string element "symbol" with
  | Checked.assertion_failed => Checked.assertion_failed
  | Checked.value none => Checked.value none
  | Checked.value (some symbol) =>
    match maybe_string element "side" with
    | Checked.assertion_failed => Checked.assertion_failed
    | Checked.value none => Checked.value none
    | Checked.value (some side) =>
      match maybe_int element "size" with
      | Checked.assertion_failed => Checked.assertion_failed
      | Checked.value none => Checked.value none
      | Checked.value (some size) =>
        match maybe_double element "price" with
        | Checked.assertion_failed => Checked.assertion_failed
        | Checked.value none => Checked.value none
        | Checked.value (some price) => Checked.value (some ⟨symbol, side, size, price⟩)

/-- A callback that appends the arguments of each call to a log. -/
def record : OnTradeCallback (List Trade) := some (fun t log => log ++ [t])

/-- The sequence of callback invocations that `parse_msg` makes for `msg` on a client with
a registered callback. -/
def invocations (msg : String) : List Trade :=
  (Client.parse_msg (Client.mk record) msg []).env

/-- The environment after the calls `trades`, made in order on the target `f`. -/
def deliver {σ : Type} (f : Trade → σ → σ) (trades : List Trade) (env : σ) : σ :=
  trades.foldl (fun e t => f t e) env

/-- The integer a `Number` stores; 0 for a `double`. -/
def integer_of : Number → Int
  | Number.int i => i
  | Number.uint u => u
  | Number.int64 i => i
  | Number.uint64 u => u
  | Number.double _ => 0

/-- The record decoder in the words of the specification: an element of `data` that has
a string `symbol`, a string `side`, an integer `size` and a floating-point `price` gives
the trade event of these four; every other element gives none. A member is the first of
its name, an integer is one that fits `int`, and the two strings are taken as the
callback receives them, as C strings. -/
def decode_record (element : Value) : Option Trade :=
  match element with
  | Value.kObjectType members =>
    match members.lookup "symbol", members.lookup "side", members.lookup "size",
      members.lookup "price" with
    | some (Value.kStringType symbol), some (Value.kStringType side),
      some (Value.kNumberType size), some (Value.kNumberType (Number.double price)) =>
      if size.IsInt then
        some ⟨String.mk (c_str symbol.data), String.mk (c_str side.data), integer_of size, price⟩
      else none
    | _, _, _, _ => none
  | _ => none

/-- The inbound envelope of the specification: `msg` parses to an object with a string
member `table` and an array member `data`; the result is the array. -/
def envelope (msg : String) : Option (List Value) :=
  match Document.Parse (c_str msg.data) with
  | Except.ok (Value.kObjectType members) =>
    match members.lookup "table", members.lookup "data" with
    | some (Value.kStringType _), some (Value.kArrayType elements) => some elements
    | _, _ => none
  | _ => none

end bitmex.websocket

namespace bitmex.websocket
open rapidjson

/-- The calls that the loop of `parse_msg` makes to a registered callback: those of the
rounds up to the first assertion failure. -/
def calls : List Value → List Trade
  | [] => []
  | element :: elements =>
    match extract element with
    | Checked.assertion_failed => []
    | Checked.value none => calls elements
    | Checked.value (some t) => t :: calls elements

/-- How the loop of `parse_msg` ends on a client with a registered callback. -/
def ending : List Value → Status
  | [] => Status.returned
  | element :: elements =>
    match extract element with
    | Checked.assertion_failed => Status.assertion_failed
    | Checked.value _ => ending elements

/-- Where `parse_msg` stands after its three guards: the run is over, or the loop starts
on the elements of `data`. -/
inductive Route
  | over (status : Status)
  | loop (elements : List Value)

/-- The part of `parse_msg` before its loop. -/
def route (msg : String) : Route :=
  match Document.Parse (c_str msg.data) with
  | Except.error _ => Route.over Status.returned
  | Except.ok doc =>
    match doc.FindMember "table" with
    | Checked.assertion_failed => Route.over Status.assertion_failed
    | Checked.value none => Route.over Status.returned
    | Checked.value (some table) =>
      if !table.IsString then Route.over Status.returned
      else
        match doc.FindMember "data" with
        | Checked.assertion_failed => Route.over Status.assertion_failed
        | Checked.value none => Route.over Status.returned
        | Checked.value (some data) =>
          if !data.IsArray then Route.over Status.returned
          else
            match data with
            | Value.kArrayType elements => Route.loop elements
            | _ => Route.over Status.assertion_failed

/-- Syntactically valid JSON, in the words of the specification: the grammar of the reader
accepts the whole text. -/
def valid_json (text : List Char) : Bool :=
  match Document.Parse text with
  | Except.ok _ => true
  | Except.error _ => false

/-- The call of the specification's trade message, `("XBTUSD", "Buy", 100, 50000.5)`. -/
def trade_XBTUSD : Trade := ⟨"XBTUSD", "Buy", 100, ⟨false, 500005, -1⟩⟩

/-- The trade message of the specification:
`{"table":"trade","data":[{"symbol":"XBTUSD","side":"Buy","size":100,"price":50000.5}]}`. -/
def msg_trade : String :=
  "\x7b\"table\":\"trade\",\"data\":[\x7b\"symbol\":\"XBTUSD\",\"side\":\"Buy\",\"size\":100,\"price\":50000.5\x7d]\x7d"

/-- A message whose only record lacks `price`:
`{"table":"trade","data":[{"symbol":"ETHUSD","side":"Sell","size":7}]}`. -/
def msg_no_price : String :=
  "\x7b\"table\":\"trade\",\"data\":[\x7b\"symbol\":\"ETHUSD\",\"side\":\"Sell\",\"size\":7\x7d]\x7d"

/-- A message whose first record lacks `price` and whose second record is well-formed:
`{"table":"trade","data":[{"symbol":"ETHUSD","side":"Sell","size":7},{"symbol":"XBTUSD","side":"Buy","size":100,"price":50000.5}]}`. -/
def msg_no_price_then_trade : String :=
  "\x7b\"table\":\"trade\",\"data\":[\x7b\"symbol\":\"ETHUSD\",\"side\":\"Sell\",\"size\":7\x7d,\x7b\"symbol\":\"XBTUSD\",\"side\":\"Buy\",\"size\":100,\"price\":50000.5\x7d]\x7d"

/-- The message before, with a record that has only `size` put between the two:
`{"table":"trade","data":[{"symbol":"ETHUSD","side":"Sell","size":7},{"size":1},{"symbol":"XBTUSD","side":"Buy","size":100,"price":50000.5}]}`. -/
def msg_trade_size_trade : String :=
  "\x7b\"table\":\"trade\",\"data\":[\x7b\"symbol\":\"ETHUSD\",\"side\":\"Sell\",\"size\":7\x7d,\x7b\"size\":1\x7d,\x7b\"symbol\":\"XBTUSD\",\"side\":\"Buy\",\"size\":100,\"price\":50000.5\x7d]\x7d"

/-- A message whose first element of `data` is the number 1 and whose second is a well-formed record:
`{"table":"trade","data":[1,{"symbol":"XBTUSD","side":"Buy","size":100,"price":50000.5}]}`. -/
def msg_number_then_trade : String :=
  "\x7b\"table\":\"trade\",\"data\":[1,\x7b\"symbol\":\"XBTUSD\",\"side\":\"Buy\",\"size\":100,\"price\":50000.5\x7d]\x7d"

/-- A message whose only element of `data` is the number 1:
`{"table":"trade","data":[1]}`. -/
def msg_number : String :=
  "\x7b\"table\":\"trade\",\"data\":[1]\x7d"

/-- A message whose first element of `data` is a string and whose second is a well-formed record:
`{"table":"trade","data":["x",{"symbol":"XBTUSD","side":"Buy","size":100,"price":50000.5}]}`. -/
def msg_string_then_trade : String :=
  "\x7b\"table\":\"trade\",\"data\":[\"x\",\x7b\"symbol\":\"XBTUSD\",\"side\":\"Buy\",\"size\":100,\"price\":50000.5\x7d]\x7d"

/-- A message without `table` whose `data` holds a well-formed record:
`{"data":[{"symbol":"XBTUSD","side":"Buy","size":100,"price":50000.5}]}`. -/
def msg_no_table : String :=
  "\x7b\"data\":[\x7b\"symbol\":\"XBTUSD\",\"side\":\"Buy\",\"size\":100,\"price\":50000.5\x7d]\x7d"

/-- The trade message followed by a NUL character and a closing bracket:
`{"table":"trade","data":[{"symbol":"XBTUSD","side":"Buy","size":100,"price":50000.5}]}\0]`. -/
def msg_trade_nul : String :=
  "\x7b\"table\":\"trade\",\"data\":[\x7b\"symbol\":\"XBTUSD\",\"side\":\"Buy\",\"size\":100,\"price\":50000.5\x7d]\x7d\x00]"

end bitmex.websocket

namespace rapidjson

/-- The number that decimal digits denote, read after the number `n`. -/
def decimal (n : Nat) : List Char → Nat
  | [] => n
  | c :: s => decimal (n * 10 + digit c) s

/-- A decimal digit. -/
def is_digit (c : Char) : Bool := decide ('0' ≤ c ∧ c ≤ '9')

/-- The integer part of a JSON number, `int = zero / ( digit1-9 *DIGIT )`. -/
def int_literal : List Char → Bool
  | [] => false
  | c :: s => (c == '0' && s.isEmpty) || (decide ('1' ≤ c ∧ c ≤ '9') && s.all is_digit)

/-- The stream does not go on with a digit. -/
def no_digit_next : List Char → Bool
  | [] => true
  | c :: _ => !is_digit c

/-- The stream goes on with neither a digit, nor a fraction, nor an exponent: a number
that ends here is written as an integer. -/
def ends_number : List Char → Bool
  | [] => true
  | c :: _ => !is_digit c && c != '.' && c != 'e' && c != 'E'

/-- The stream goes on with a fraction or an exponent. -/
def fraction_or_exponent_next : List Char → Bool
  | [] => false
  | c :: _ => c == '.' || c == 'e' || c == 'E'

/-- The text of the sign of a number. -/
def sign (minus : Bool) : List Char := if minus then ['-'] else []

/-- The integer that a sign and digits denote. -/
def signed (minus : Bool) (digits : List Char) : Int :=
  if minus then -(decimal 0 digits : Int) else (decimal 0 digits : Int)

/-- The largest magnitude that `ParseNumber` holds in the 32-bit `i`: 2^31 after a minus
sign, 2^32 - 1 otherwise. -/
def bound32 (minus : Bool) : Nat := if minus then 2147483648 else 4294967295

/-- The largest magnitude that `ParseNumber` holds in the 64-bit `i64`: 2^63 after a minus
sign, 2^64 - 1 otherwise. -/
def bound64 (minus : Bool) : Nat := if minus then 9223372036854775808 else 18446744073709551615


/-- The number that `ParseNumber` stores for an integer literal of magnitude `v` within
the bounds of `i64`: an `int` or `unsigned` if `i` holds it, an `int64_t` or `uint64_t`
otherwise. -/
def stored_integer (minus : Bool) (v : Nat) : Number :=
  if minus then
    if v ≤ 2147483648 then Number.int (-(v : Int)) else Number.int64 (-(v : Int))
  else
    if v ≤ 4294967295 then Number.uint v else Number.uint64 v


/-- A stored `int` is within the range of `int`, as its type in the source has it. -/
def Number.fits : Number → Prop
  | Number.int i => -2147483648 ≤ i ∧ i < 2147483648
  | _ => True

/-- Every `int` stored in a value, at any depth, is within the range of `int`. -/
inductive Value.fits : Value → Prop
  | null : Value.fits Value.kNullType
  | no : Value.fits Value.kFalseType
  | yes : Value.fits Value.kTrueType
  | object (members : List (String × Value)) (h : ∀ m ∈ members, Value.fits m.2) :
    Value.fits (Value.kObjectType members)
  | array (elements : List Value) (h : ∀ e ∈ elements, Value.fits e) :
    Value.fits (Value.kArrayType elements)
  | string (s : String) : Value.fits (Value.kStringType s)
  | number (n : Number) (h : n.fits) : Value.fits (Value.kNumberType n)

end rapidjson

namespace bitmex.websocket
open rapidjson

/-- The trade message with `quote` for its `table`:
`{"table":"quote","data":[{"symbol":"XBTUSD","side":"Buy","size":100,"price":50000.5}]}`. -/
def msg_quote : String :=
  "\x7b\"table\":\"quote\",\"data\":[\x7b\"symbol\":\"XBTUSD\",\"side\":\"Buy\",\"size\":100,\"price\":50000.5\x7d]\x7d"

/-- The trade message with a member `action` in the envelope:
`{"table":"trade","action":"insert","data":[{"symbol":"XBTUSD","side":"Buy","size":100,"price":50000.5}]}`. -/
def msg_trade_action : String :=
  "\x7b\"table\":\"trade\",\"action\":\"insert\",\"data\":[\x7b\"symbol\":\"XBTUSD\",\"side\":\"Buy\",\"size\":100,\"price\":50000.5\x7d]\x7d"

/-- The message before, with a member `trdMatchID` in the record:
`{"table":"trade","action":"insert","data":[{"symbol":"XBTUSD","side":"Buy","size":100,"price":50000.5,"trdMatchID":"0"}]}`. -/
def msg_trade_feed : String :=
  "\x7b\"table\":\"trade\",\"action\":\"insert\",\"data\":[\x7b\"symbol\":\"XBTUSD\",\"side\":\"Buy\",\"size\":100,\"price\":50000.5,\"trdMatchID\":\"0\"\x7d]\x7d"

/-- The trade message with the price written as the integer `50000`:
`{"table":"trade","data":[{"symbol":"XBTUSD","side":"Buy","size":100,"price":50000}]}`. -/
def msg_price_integer : String :=
  "\x7b\"table\":\"trade\",\"data\":[\x7b\"symbol\":\"XBTUSD\",\"side\":\"Buy\",\"size\":100,\"price\":50000\x7d]\x7d"

/-- The trade message with the price written with an exponent, `5e4`:
`{"table":"trade","data":[{"symbol":"XBTUSD","side":"Buy","size":100,"price":5e4}]}`. -/
def msg_price_exponent : String :=
  "\x7b\"table\":\"trade\",\"data\":[\x7b\"symbol\":\"XBTUSD\",\"side\":\"Buy\",\"size\":100,\"price\":5e4\x7d]\x7d"

/-- The trade message with the price written as the integer 2^64:
`{"table":"trade","data":[{"symbol":"XBTUSD","side":"Buy","size":100,"price":18446744073709551616}]}`. -/
def msg_price_big : String :=
  "\x7b\"table\":\"trade\",\"data\":[\x7b\"symbol\":\"XBTUSD\",\"side\":\"Buy\",\"size\":100,\"price\":18446744073709551616\x7d]\x7d"

/-- The trade message with the size `3000000000`:
`{"table":"trade","data":[{"symbol":"XBTUSD","side":"Buy","size":3000000000,"price":50000.5}]}`. -/
def msg_size_big : String :=
  "\x7b\"table\":\"trade\",\"data\":[\x7b\"symbol\":\"XBTUSD\",\"side\":\"Buy\",\"size\":3000000000,\"price\":50000.5\x7d]\x7d"

/-- The trade message with the size written with a fraction, `100.0`:
`{"table":"trade","data":[{"symbol":"XBTUSD","side":"Buy","size":100.0,"price":50000.5}]}`. -/
def msg_size_fraction : String :=
  "\x7b\"table\":\"trade\",\"data\":[\x7b\"symbol\":\"XBTUSD\",\"side\":\"Buy\",\"size\":100.0,\"price\":50000.5\x7d]\x7d"

/-- The trade message with the size -2^31:
`{"table":"trade","data":[{"symbol":"XBTUSD","side":"Buy","size":-2147483648,"price":50000.5}]}`. -/
def msg_size_min : String :=
  "\x7b\"table\":\"trade\",\"data\":[\x7b\"symbol\":\"XBTUSD\",\"side\":\"Buy\",\"size\":-2147483648,\"price\":50000.5\x7d]\x7d"

/-- The trade message with the size 2^31:
`{"table":"trade","data":[{"symbol":"XBTUSD","side":"Buy","size":2147483648,"price":50000.5}]}`. -/
def msg_size_over : String :=
  "\x7b\"table\":\"trade\",\"data\":[\x7b\"symbol\":\"XBTUSD\",\"side\":\"Buy\",\"size\":2147483648,\"price\":50000.5\x7d]\x7d"

/-- Two calls in sequence: the second call runs from the environment that the first call
left, unless the first call did not return, in which case it is not made. -/
def followed_by {σ : Type} (first : Outcome σ) (second : σ → Outcome σ) : Outcome σ :=
  match first.status with
  | Status.returned => second first.env
  | _ => first

end bitmex.websocket

/-! ## The topic table and the subscription encoder -/

namespace bitmex.websocket

/-- C3. `to_string` is defined on all 22 enumerators of `Topic` and returns the wire
name of the table for each of them; for every enumerator the `switch` returns from one of
its cases, so the unreachable branch after it is not taken. -/
theorem to_string_table :
    (to_string Topic.Announcement = "announcement" ∧ to_string Topic.Chat = "chat" ∧
      to_string Topic.Connected = "connected" ∧ to_string Topic.Funding = "funding" ∧
      to_string Topic.Instrument = "instrument" ∧ to_string Topic.Insurance = "insurance" ∧
      to_string Topic.Liquidation = "liquidation" ∧
      to_string Topic.OrderBookL2_25 = "orderBookL2_25" ∧
      to_string Topic.OrderBookL2 = "orderBookL2" ∧
      to_string Topic.OrderBook10 = "orderBook10" ∧
      to_string Topic.PublicNotifications = "publicNotifications" ∧
      to_string Topic.Quote = "quote" ∧ to_string Topic.QuoteBin1m = "quoteBin1m" ∧
      to_string Topic.QuoteBin5m = "quoteBin5m" ∧ to_string Topic.QuoteBin1h = "quoteBin1h" ∧
      to_string Topic.QuoteBin1d = "quoteBin1d" ∧ to_string Topic.Settlement = "settlement" ∧
      to_string Topic.Trade = "trade" ∧ to_string Topic.TradeBin1m = "tradeBin1m" ∧
      to_string Topic.TradeBin5m = "tradeBin5m" ∧ to_string Topic.TradeBin1h = "tradeBin1h" ∧
      to_string Topic.TradeBin1d = "tradeBin1d") ∧
    (∀ topic : Topic, to_string.switch topic.underlying = some (to_string topic)) ∧
    (∀ value : Nat, to_string.switch value = none ↔ 22 ≤ value) := by
  refine ⟨⟨rfl, rfl, rfl, rfl, rfl, rfl, rfl, rfl, rfl, rfl, rfl, rfl, rfl, rfl, rfl, rfl, rfl,
    rfl, rfl, rfl, rfl, rfl⟩, ?_, ?_⟩
  · intro topic
    cases topic <;> rfl
  · intro value
    constructor
    · intro h
      by_contra hlt
      have hv : value < 22 := by omega
      interval_cases value <;> simp [to_string.switch] at h
    · intro h
      unfold to_string.switch
      split <;> first | omega | rfl

/-- C2. For every instrument and topic, `make_subscribe` is, character for character,
the opening text, the wire name of the topic, one colon, the instrument unchanged, and
the closing text; it starts and ends with the brackets of the command, so there is no
surrounding whitespace; the command for XBTUSD on the trade topic is the literal of the
specification. -/
theorem make_subscribe_shape (instrument : String) (topic : Topic) :
    (make_subscribe instrument topic).data =
        "\x7b\"op\":\"subscribe\",\"args\":[\"".data ++ (to_string topic).data ++ [':'] ++
          instrument.data ++ "\"]\x7d".data ∧
      (make_subscribe instrument topic).data.head? = some '\x7b' ∧
      (make_subscribe instrument topic).data.getLast? = some '\x7d' ∧
      make_subscribe "XBTUSD" Topic.Trade =
        "\x7b\"op\":\"subscribe\",\"args\":[\"trade:XBTUSD\"]\x7d" := by
  have h : (make_subscribe instrument topic).data =
      "\x7b\"op\":\"subscribe\",\"args\":[\"".data ++ (to_string topic).data ++ [':'] ++
        instrument.data ++ "\"]\x7d".data := by
    simp [make_subscribe, String.data_append]
  refine ⟨h, ?_, ?_, by decide⟩
  · rw [h]
    rfl
  · rw [h]
    have hl : "\"]\x7d".data.getLast? = some '\x7d' := rfl
    rw [List.getLast?_append, hl]
    rfl


end bitmex.websocket

/-! ## The reader: its fuel is enough -/

namespace rapidjson

/-- Skipping whitespace does not lengthen the stream. -/
theorem SkipWhitespace_length (s : List Char) : (SkipWhitespace s).length ≤ s.length := by
  induction s with
  | nil => simp [SkipWhitespace]
  | cons c s ih =>
    simp only [SkipWhitespace]
    split
    · exact Nat.le_succ_of_le ih
    · exact Nat.le_refl _

/-- The 32-bit digit loop does not lengthen the stream. -/
theorem loop32_length (minus : Bool) (i : Nat) (s : List Char) :
    (ParseNumber.loop32 minus i s).2.2.length ≤ s.length := by
  induction s generalizing i with
  | nil => simp [ParseNumber.loop32]
  | cons c s ih =>
    simp only [ParseNumber.loop32]
    repeat' split
    all_goals first
      | exact Nat.le_refl _
      | exact Nat.le_succ_of_le (ih _)

/-- The 64-bit digit loop does not lengthen the stream. -/
theorem loop64_length (minus : Bool) (i : Nat) (s : List Char) :
    (ParseNumber.loop64 minus i s).2.2.length ≤ s.length := by
  induction s generalizing i with
  | nil => simp [ParseNumber.loop64]
  | cons c s ih =>
    simp only [ParseNumber.loop64]
    repeat' split
    all_goals first
      | exact Nat.le_refl _
      | exact Nat.le_succ_of_le (ih _)

/-- The digit loop of a big integer does not lengthen the stream. -/
theorem loopDouble_length (d : Nat) (s : List Char) (r : Nat × List Char)
    (h : ParseNumber.loopDouble d s = some r) : r.2.length ≤ s.length := by
  induction s generalizing d with
  | nil =>
    simp only [ParseNumber.loopDouble, Option.some.injEq] at h
    subst h
    exact Nat.le_refl _
  | cons c s ih =>
    simp only [ParseNumber.loopDouble] at h
    split at h
    · split at h
      · simp at h
      · exact Nat.le_succ_of_le (ih _ h)
    · simp only [Option.some.injEq] at h
      subst h
      exact Nat.le_refl _

/-- The digit loop of the fraction does not lengthen the stream. -/
theorem loopFrac_length (d : Nat) (e : Int) (s : List Char) :
    (ParseNumber.loopFrac d e s).2.2.length ≤ s.length := by
  induction s generalizing d e with
  | nil => simp [ParseNumber.loopFrac]
  | cons c s ih =>
    simp only [ParseNumber.loopFrac]
    split
    · exact Nat.le_succ_of_le (ih _ _)
    · exact Nat.le_refl _

/-- Consuming the rest of an exponent does not lengthen the stream. -/
theorem skipDigits_length (s : List Char) : (ParseNumber.skipDigits s).length ≤ s.length := by
  induction s with
  | nil => simp [ParseNumber.skipDigits]
  | cons c s ih =>
    simp only [ParseNumber.skipDigits]
    split
    · exact Nat.le_succ_of_le ih
    · exact Nat.le_refl _

/-- The digit loop of a negative exponent does not lengthen the stream. -/
theorem loopExpMinus_length (m e : Int) (s : List Char) :
    (ParseNumber.loopExpMinus m e s).2.length ≤ s.length := by
  induction s generalizing e with
  | nil => simp [ParseNumber.loopExpMinus]
  | cons c s ih =>
    simp only [ParseNumber.loopExpMinus]
    repeat' split
    · exact Nat.le_succ_of_le (skipDigits_length s)
    · exact Nat.le_succ_of_le (ih _)
    · exact Nat.le_refl _

/-- The digit loop of a positive exponent does not lengthen the stream. -/
theorem loopExpPlus_length (m e : Int) (s : List Char) (r : Int × List Char)
    (h : ParseNumber.loopExpPlus m e s = some r) : r.2.length ≤ s.length := by
  induction s generalizing e with
  | nil =>
    simp only [ParseNumber.loopExpPlus, Option.some.injEq] at h
    subst h
    exact Nat.le_refl _
  | cons c s ih =>
    simp only [ParseNumber.loopExpPlus] at h
    split at h
    · split at h
      · simp at h
      · exact Nat.le_succ_of_le (ih _ h)
    · simp only [Option.some.injEq] at h
      subst h
      exact Nat.le_refl _

/-- The end of a `double` uses no fuel and leaves the stream as it is. -/
theorem done_length (minus : Bool) (d : Nat) (f e : Int) (s : List Char) :
    ParseNumber.done minus d f e s ≠ Parsed.starved ∧
      ∀ n rest, ParseNumber.done minus d f e s = Parsed.ok n rest →
        rest.length ≤ s.length := by
  simp only [ParseNumber.done]
  cases ParseNumber.tooBig d (e + f) with
  | true => simp
  | false =>
    refine ⟨by simp, ?_⟩
    intro n rest h
    simp only [Bool.false_eq_true, if_false, Parsed.ok.injEq] at h
    rw [h.2]

/-- The digits of an exponent use no fuel and do not lengthen the stream. -/
theorem exponentDigits_length (minus : Bool) (d : Nat) (f : Int) (b : Bool) (s : List Char) :
    ParseNumber.exponentDigits minus d f b s ≠ Parsed.starved ∧
      ∀ n rest, ParseNumber.exponentDigits minus d f b s = Parsed.ok n rest →
        rest.length ≤ s.length := by
  cases s with
  | nil => simp [ParseNumber.exponentDigits]
  | cons c s2 =>
    simp only [ParseNumber.exponentDigits, List.length_cons]
    by_cases hc : '0' ≤ c ∧ c ≤ '9'
    · simp only [if_pos hc]
      cases b with
      | true =>
        simp only [if_true]
        have hl := loopExpMinus_length ((f + 2147483639) / 10) (digit c) s2
        have hd := done_length minus d f
          (-(ParseNumber.loopExpMinus ((f + 2147483639) / 10) (digit c) s2).1)
          (ParseNumber.loopExpMinus ((f + 2147483639) / 10) (digit c) s2).2
        refine ⟨hd.1, ?_⟩
        intro n rest h
        have := hd.2 n rest h
        omega
      | false =>
        simp only [Bool.false_eq_true, if_false]
        cases hp : ParseNumber.loopExpPlus (308 - f) (digit c) s2 with
        | none => simp
        | some r =>
          have hl := loopExpPlus_length _ _ _ r hp
          have hd := done_length minus d f r.1 r.2
          refine ⟨hd.1, ?_⟩
          intro n rest h
          have := hd.2 n rest h
          omega
    · simp [if_neg hc]

/-- The exponent part uses no fuel and does not lengthen the stream. -/
theorem exponent_length (minus : Bool) (d : Nat) (f : Int) (s : List Char) :
    ParseNumber.exponent minus d f s ≠ Parsed.starved ∧
      ∀ n rest, ParseNumber.exponent minus d f s = Parsed.ok n rest →
        rest.length ≤ s.length := by
  unfold ParseNumber.exponent
  split
  · rename_i s1
    have h := exponentDigits_length minus d f false s1
    refine ⟨h.1, fun n rest hr => ?_⟩
    have := h.2 n rest hr
    simp only [List.length_cons]
    omega
  · rename_i s1
    have h := exponentDigits_length minus d f true s1
    refine ⟨h.1, fun n rest hr => ?_⟩
    have := h.2 n rest hr
    simp only [List.length_cons]
    omega
  · exact exponentDigits_length minus d f false s

/-- The end of a `double` with its exponent uses no fuel and does not lengthen the stream.
-/
theorem finishDouble_length (minus : Bool) (d : Nat) (f : Int) (s : List Char) :
    ParseNumber.finishDouble minus d f s ≠ Parsed.starved ∧
      ∀ n rest, ParseNumber.finishDouble minus d f s = Parsed.ok n rest →
        rest.length ≤ s.length := by
  unfold ParseNumber.finishDouble
  split
  · rename_i s1
    have h := exponent_length minus d f s1
    refine ⟨h.1, fun n rest hr => ?_⟩
    have := h.2 n rest hr
    simp only [List.length_cons]
    omega
  · rename_i s1
    have h := exponent_length minus d f s1
    refine ⟨h.1, fun n rest hr => ?_⟩
    have := h.2 n rest hr
    simp only [List.length_cons]
    omega
  · exact done_length minus d f 0 s

/-- What follows the integer part uses no fuel and does not lengthen the stream. -/
theorem tail_length (minus : Bool) (n : Nat) (b64 bd : Bool) (s : List Char) :
    ParseNumber.tail minus n b64 bd s ≠ Parsed.starved ∧
      ∀ m rest, ParseNumber.tail minus n b64 bd s = Parsed.ok m rest →
        rest.length ≤ s.length := by
  unfold ParseNumber.tail
  split
  · rename_i s1
    split
    · simp
    · rename_i c s2
      split
      · have hl := loopFrac_length n 0 (c :: s2)
        have h := finishDouble_length minus (ParseNumber.loopFrac n 0 (c :: s2)).1
          (ParseNumber.loopFrac n 0 (c :: s2)).2.1 (ParseNumber.loopFrac n 0 (c :: s2)).2.2
        refine ⟨h.1, fun m rest hr => ?_⟩
        have := h.2 m rest hr
        simp only [List.length_cons] at hl ⊢
        omega
      · simp
  · exact finishDouble_length minus n 0 _
  · exact finishDouble_length minus n 0 _
  · repeat' split
    · exact finishDouble_length minus n 0 s
    all_goals
      refine ⟨by simp, fun m rest hr => ?_⟩
      simp only [Parsed.ok.injEq] at hr
      rw [hr.2]

/-- A number without its sign uses no fuel and consumes at least one character. -/
theorem unsigned_length (minus : Bool) (s : List Char) :
    ParseNumber.unsigned minus s ≠ Parsed.starved ∧
      ∀ m rest, ParseNumber.unsigned minus s = Parsed.ok m rest →
        rest.length < s.length := by
  cases s with
  | nil => simp [ParseNumber.unsigned]
  | cons c s1 =>
    simp only [ParseNumber.unsigned, List.length_cons]
    split
    · have h := tail_length minus 0 false false s1
      refine ⟨h.1, fun m rest hr => ?_⟩
      have := h.2 m rest hr
      omega
    · split
      · have h32 := loop32_length minus (digit c) s1
        split
        · rename_i i s2 heq
          rw [heq] at h32
          have h := tail_length minus i false false s2
          refine ⟨h.1, fun m rest hr => ?_⟩
          have := h.2 m rest hr
          simp only at h32
          omega
        · rename_i i s2 heq
          rw [heq] at h32
          have h64 := loop64_length minus i s2
          split
          · rename_i i64 s3 heq2
            rw [heq2] at h64
            have h := tail_length minus i64 true false s3
            refine ⟨h.1, fun m rest hr => ?_⟩
            have := h.2 m rest hr
            simp only at h32 h64
            omega
          · rename_i i64 s3 heq2
            rw [heq2] at h64
            split
            · rename_i dd s4 heq3
              have hd := loopDouble_length i64 s3 (dd, s4) heq3
              have h := tail_length minus dd true true s4
              refine ⟨h.1, fun m rest hr => ?_⟩
              have := h.2 m rest hr
              simp only at h32 h64 hd
              omega
            · simp
      · simp

/-- The routine `ParseNumber` uses no fuel and consumes at least one character. -/
theorem ParseNumber_length (s : List Char) :
    ParseNumber s ≠ Parsed.starved ∧
      ∀ m rest, ParseNumber s = Parsed.ok m rest → rest.length < s.length := by
  unfold ParseNumber
  split
  · rename_i s0
    have h := unsigned_length true s0
    refine ⟨h.1, fun m rest hr => ?_⟩
    have := h.2 m rest hr
    simp only [List.length_cons]
    omega
  · exact unsigned_length false s


/-- An escape `\u` consumes at least one character and never closes the string. -/
theorem unicode_length (s : List Char) :
    (∀ c rest, ParseStringToStream.unicode s = Round.put c rest → rest.length < s.length) ∧
      ∀ rest, ParseStringToStream.unicode s ≠ Round.close rest := by
  unfold ParseStringToStream.unicode
  repeat' split
  all_goals
    refine ⟨fun c rest hr => ?_, fun rest => by simp⟩
    simp only [Round.put.injEq, reduceCtorEq] at hr
    try (rw [← hr.2]; simp only [List.length_cons]; omega)

/-- A round of `ParseStringToStream` that does not fail consumes at least one character.
-/
theorem round_length (s : List Char) :
    (∀ c rest, ParseStringToStream.round s = Round.put c rest → rest.length < s.length) ∧
      ∀ rest, ParseStringToStream.round s = Round.close rest → rest.length < s.length := by
  unfold ParseStringToStream.round
  repeat' split
  all_goals first
    | (rename_i s1 _ _ _
       have h := unicode_length s1
       refine ⟨fun c rest hr => ?_, fun rest hr => absurd hr (h.2 rest)⟩
       have := h.1 c rest hr
       simp only [List.length_cons]
       omega)
    | (refine ⟨fun c rest hr => ?_, fun rest hr => ?_⟩
       · simp only [Round.put.injEq, reduceCtorEq] at hr
         try (rw [← hr.2]; simp only [List.length_cons]; omega)
       · simp only [Round.close.injEq, reduceCtorEq] at hr
         try (rw [← hr]; simp only [List.length_cons]; omega))

/-- With more fuel than characters, `ParseStringToStream` does not run out of fuel, and
what it leaves of the stream is shorter than the stream. -/
theorem ParseStringToStream_length (fuel : Nat) :
    ∀ (s os : List Char), s.length < fuel →
      ParseStringToStream fuel os s ≠ Parsed.starved ∧
        ∀ a rest, ParseStringToStream fuel os s = Parsed.ok a rest →
          rest.length < s.length := by
  induction fuel with
  | zero => intro s os hs; omega
  | succ fuel ih =>
    intro s os hs
    have hround := round_length s
    simp only [ParseStringToStream]
    cases hr : ParseStringToStream.round s with
    | put c rest =>
      have hlt := hround.1 c rest hr
      have h := ih rest (os ++ [c]) (by omega)
      refine ⟨h.1, fun a r hok => ?_⟩
      have := h.2 a r hok
      omega
    | close rest =>
      have hlt := hround.2 rest hr
      refine ⟨by simp, fun a r hok => ?_⟩
      simp only [Parsed.ok.injEq] at hok
      rw [← hok.2]
      exact hlt
    | fail code => simp


/-- The literals `null`, `true` and `false` use no fuel and do not lengthen the stream. -/
theorem literal_length (s : List Char) :
    (ParseNull s ≠ Parsed.starved ∧
        ∀ v rest, ParseNull s = Parsed.ok v rest → rest.length ≤ s.length) ∧
      (ParseTrue s ≠ Parsed.starved ∧
        ∀ v rest, ParseTrue s = Parsed.ok v rest → rest.length ≤ s.length) ∧
      (ParseFalse s ≠ Parsed.starved ∧
        ∀ v rest, ParseFalse s = Parsed.ok v rest → rest.length ≤ s.length) := by
  refine ⟨?_, ?_, ?_⟩
  · unfold ParseNull
    split
    · refine ⟨by simp, fun v rest h => ?_⟩
      simp only [Parsed.ok.injEq] at h
      rw [← h.2]
      simp only [List.length_cons]
      omega
    · simp
  · unfold ParseTrue
    split
    · refine ⟨by simp, fun v rest h => ?_⟩
      simp only [Parsed.ok.injEq] at h
      rw [← h.2]
      simp only [List.length_cons]
      omega
    · simp
  · unfold ParseFalse
    split
    · refine ⟨by simp, fun v rest h => ?_⟩
      simp only [Parsed.ok.injEq] at h
      rw [← h.2]
      simp only [List.length_cons]
      omega
    · simp

/-- With more fuel than characters, `ParseString` does not run out of fuel and shortens
the stream. -/
theorem ParseString_length (fuel : Nat) (s : List Char) (hs : s.length < fuel) :
    ParseString fuel s ≠ Parsed.starved ∧
      ∀ v rest, ParseString fuel s = Parsed.ok v rest → rest.length < s.length := by
  have h := ParseStringToStream_length fuel s [] hs
  unfold ParseString
  cases hp : ParseStringToStream fuel [] s with
  | ok a r =>
    refine ⟨by simp, fun v rest hok => ?_⟩
    simp only [Parsed.ok.injEq] at hok
    rw [← hok.2]
    exact h.2 a r hp
  | error code => simp
  | starved => exact absurd hp h.1

/-- The default branch of `ParseValue` uses no fuel and consumes at least one character.
-/
theorem number_length (s : List Char) :
    ParseValue.number s ≠ Parsed.starved ∧
      ∀ v rest, ParseValue.number s = Parsed.ok v rest → rest.length < s.length := by
  have h := ParseNumber_length s
  unfold ParseValue.number
  cases hp : ParseNumber s with
  | ok a r =>
    refine ⟨by simp, fun v rest hok => ?_⟩
    simp only [Parsed.ok.injEq] at hok
    rw [← hok.2]
    exact h.2 a r hp
  | error code => simp
  | starved => exact absurd hp h.1

/-- The fuel of `Document.Parse` is enough: with a fuel of more than twice the length of
the stream, `ParseValue` and the loops of `ParseObject` and `ParseArray` never run out of
fuel, and what they leave of the stream is shorter than the stream. -/
theorem ParseValue_fuel (fuel : Nat) :
    (∀ s, 2 * s.length + 1 ≤ fuel →
      ParseValue fuel s ≠ Parsed.starved ∧
        ∀ v rest, ParseValue fuel s = Parsed.ok v rest → rest.length < s.length) ∧
    (∀ members s, 2 * s.length + 2 ≤ fuel →
      ParseObject.loop fuel members s ≠ Parsed.starved ∧
        ∀ v rest, ParseObject.loop fuel members s = Parsed.ok v rest →
          rest.length < s.length) ∧
    (∀ elements s, 2 * s.length + 2 ≤ fuel →
      ParseArray.loop fuel elements s ≠ Parsed.starved ∧
        ∀ v rest, ParseArray.loop fuel elements s = Parsed.ok v rest →
          rest.length < s.length) := by
  induction fuel with
  | zero =>
    refine ⟨fun s h => ?_, fun _ s h => ?_, fun _ s h => ?_⟩ <;> omega
  | succ fuel ih =>
    obtain ⟨ihv, iho, iha⟩ := ih
    refine ⟨fun s hs => ?_, fun members s hs => ?_, fun elements s hs => ?_⟩
    · -- ParseValue
      unfold ParseValue
      split
      · rename_i s1
        have h := (literal_length s1).1
        refine ⟨h.1, fun v rest hr => ?_⟩
        have := h.2 v rest hr
        simp only [List.length_cons]
        omega
      · rename_i s1
        have h := (literal_length s1).2.1
        refine ⟨h.1, fun v rest hr => ?_⟩
        have := h.2 v rest hr
        simp only [List.length_cons]
        omega
      · rename_i s1
        have h := (literal_length s1).2.2
        refine ⟨h.1, fun v rest hr => ?_⟩
        have := h.2 v rest hr
        simp only [List.length_cons]
        omega
      · rename_i s1
        simp only [List.length_cons] at hs
        have h := ParseString_length fuel s1 (by omega)
        refine ⟨h.1, fun v rest hr => ?_⟩
        have := h.2 v rest hr
        simp only [List.length_cons]
        omega
      · rename_i s1
        simp only [List.length_cons] at hs
        have hw := SkipWhitespace_length s1
        split
        · rename_i rest heq
          rw [heq] at hw
          simp only [List.length_cons] at hw
          refine ⟨by simp, fun v r hr => ?_⟩
          simp only [Parsed.ok.injEq] at hr
          rw [← hr.2]
          simp only [List.length_cons]
          omega
        · have h := iho [] (SkipWhitespace s1) (by omega)
          refine ⟨h.1, fun v r hr => ?_⟩
          have := h.2 v r hr
          simp only [List.length_cons]
          omega
      · rename_i s1
        simp only [List.length_cons] at hs
        have hw := SkipWhitespace_length s1
        split
        · rename_i rest heq
          rw [heq] at hw
          simp only [List.length_cons] at hw
          refine ⟨by simp, fun v r hr => ?_⟩
          simp only [Parsed.ok.injEq] at hr
          rw [← hr.2]
          simp only [List.length_cons]
          omega
        · have h := iha [] (SkipWhitespace s1) (by omega)
          refine ⟨h.1, fun v r hr => ?_⟩
          have := h.2 v r hr
          simp only [List.length_cons]
          omega
      · exact number_length s
    · -- ParseObject.loop
      unfold ParseObject.loop
      split
      · rename_i s1
        simp only [List.length_cons] at hs ⊢
        have hstr := ParseStringToStream_length fuel s1 [] (by omega)
        cases hp : ParseStringToStream fuel [] s1 with
        | starved => exact absurd hp hstr.1
        | error code => simp
        | ok name s2 =>
          have h2 := hstr.2 name s2 hp
          have hw2 := SkipWhitespace_length s2
          simp only
          split
          · rename_i s3 heq3
            rw [heq3] at hw2
            simp only [List.length_cons] at hw2
            have hw3 := SkipWhitespace_length s3
            have hv := ihv (SkipWhitespace s3) (by omega)
            cases hpv : ParseValue fuel (SkipWhitespace s3) with
            | starved => exact absurd hpv hv.1
            | error code => simp
            | ok value s4 =>
              have h4 := hv.2 value s4 hpv
              have hw4 := SkipWhitespace_length s4
              simp only
              split
              · rename_i s5 heq5
                rw [heq5] at hw4
                simp only [List.length_cons] at hw4
                have hw5 := SkipWhitespace_length s5
                have h := iho (members ++ [(name, value)]) (SkipWhitespace s5) (by omega)
                refine ⟨h.1, fun v r hr => ?_⟩
                have := h.2 v r hr
                omega
              · rename_i rest heq5
                rw [heq5] at hw4
                simp only [List.length_cons] at hw4
                refine ⟨by simp, fun v r hr => ?_⟩
                simp only [Parsed.ok.injEq] at hr
                rw [← hr.2]
                omega
              · simp
          · simp
      · simp
    · -- ParseArray.loop
      unfold ParseArray.loop
      have hv := ihv s (by omega)
      cases hpv : ParseValue fuel s with
      | starved => exact absurd hpv hv.1
      | error code => simp
      | ok value s1 =>
        have h1 := hv.2 value s1 hpv
        have hw1 := SkipWhitespace_length s1
        simp only
        split
        · rename_i s2 heq2
          rw [heq2] at hw1
          simp only [List.length_cons] at hw1
          have hw2 := SkipWhitespace_length s2
          have h := iha (elements ++ [value]) (SkipWhitespace s2) (by omega)
          refine ⟨h.1, fun v r hr => ?_⟩
          have := h.2 v r hr
          omega
        · rename_i rest heq2
          rw [heq2] at hw1
          simp only [List.length_cons] at hw1
          refine ⟨by simp, fun v r hr => ?_⟩
          simp only [Parsed.ok.injEq] at hr
          rw [← hr.2]
          omega
        · simp

/-- The reader never runs out of fuel under `Document.Parse`: the last case of its
definition does not occur. -/
theorem Document_Parse_fuel (str : List Char) :
    Reader.Parse (2 * str.length + 2) str ≠ Parsed.starved := by
  unfold Reader.Parse
  have hw := SkipWhitespace_length str
  split
  · simp
  · have hv := ((ParseValue_fuel (2 * str.length + 2)).1 (SkipWhitespace str) (by omega)).1
    cases hp : ParseValue (2 * str.length + 2) (SkipWhitespace str) with
    | starved => exact absurd hp hv
    | error code => simp
    | ok value rest =>
      simp only
      split <;> simp

end rapidjson

/-! ## The decoder: rounds of the loop and the record decoder -/

namespace bitmex.websocket
open rapidjson

/-- One round of the loop of `parse_msg`, in terms of `extract`. -/
theorem loop_cons {σ : Type} (c : Client σ) (element : Value) (elements : List Value) (env : σ) :
    parse_msg.loop c (element :: elements) env =
      match extract element with
      | Checked.assertion_failed => ⟨env, Status.assertion_failed⟩
      | Checked.value none => parse_msg.loop c elements env
      | Checked.value (some t) =>
        match c._on_trade with
        | none => ⟨env, Status.bad_function_call⟩
        | some target => parse_msg.loop c elements (target t env) := by
  simp only [parse_msg.loop, extract]
  repeat' split
  all_goals simp_all


/-- The conversion to `int32_t` keeps a value below 2^31. -/
theorem toInt32_of_lt (u : Nat) (h : u < 2 ^ 31) : toInt32 u = (u : Int) := by
  have h0 : u < 2147483648 := by norm_num at h; exact h
  have h1 : u % 4294967296 = u := Nat.mod_eq_of_lt (by omega)
  have h2 : u % 4294967296 < 2147483648 := by omega
  simp only [toInt32]
  norm_num
  rw [if_pos h2]
  exact_mod_cast h1

/-- On a number with `kIntFlag`, `GetInt()` is the stored integer. -/
theorem GetInt_of_IsInt (n : Number) (h : n.IsInt = true) :
    (Value.kNumberType n).GetInt = Checked.value (integer_of n) := by
  cases n with
  | int i => simp [Value.GetInt, Value.IsInt, Number.IsInt, integer_of]
  | uint u =>
    have hu : u < 2 ^ 31 := by simpa [Number.IsInt] using h
    simp [Value.GetInt, Value.IsInt, h, integer_of, toInt32_of_lt u hu]
  | int64 i => simp [Value.GetInt, Value.IsInt, h, integer_of]
  | uint64 u =>
    have hu : u < 2 ^ 31 := by simpa [Number.IsInt] using h
    simp [Value.GetInt, Value.IsInt, h, integer_of, toInt32_of_lt u hu]
  | double d => simp [Number.IsInt] at h

/-- On an object, `maybe_string` is the string of the first member of that name, if it is
one. -/
theorem maybe_string_object (members : List (String × Value)) (name : String) :
    maybe_string (Value.kObjectType members) name =
      match members.lookup name with
      | some (Value.kStringType s) => Checked.value (some (String.mk (c_str s.data)))
      | _ => Checked.value none := by
  simp only [maybe_string, Value.FindMember]
  cases members.lookup name with
  | none => rfl
  | some v => cases v <;> simp [Value.IsString, Value.GetString]

/-- On an object, `maybe_int` is the integer of the first member of that name, if it is an
`int`. -/
theorem maybe_int_object (members : List (String × Value)) (name : String) :
    maybe_int (Value.kObjectType members) name =
      match members.lookup name with
      | some (Value.kNumberType n) =>
        if n.IsInt then Checked.value (some (integer_of n)) else Checked.value none
      | _ => Checked.value none := by
  simp only [maybe_int, Value.FindMember]
  cases members.lookup name with
  | none => rfl
  | some v =>
    cases v with
    | kNumberType n =>
      by_cases h : n.IsInt = true
      · simp [Value.IsInt, h, GetInt_of_IsInt n h]
      · simp [Value.IsInt, h]
    | _ => simp [Value.IsInt]

/-- On an object, `maybe_double` is the number of the first member of that name, if it is
a `double`. -/
theorem maybe_double_object (members : List (String × Value)) (name : String) :
    maybe_double (Value.kObjectType members) name =
      match members.lookup name with
      | some (Value.kNumberType (Number.double d)) => Checked.value (some d)
      | _ => Checked.value none := by
  simp only [maybe_double, Value.FindMember]
  cases members.lookup name with
  | none => rfl
  | some v =>
    cases v with
    | kNumberType n => cases n <;> simp [Value.IsDouble, Value.GetDouble]
    | _ => simp [Value.IsDouble]

/-- On an object, the four extractions of a round are the record decoder of the
specification. -/
theorem extract_object (members : List (String × Value)) :
    extract (Value.kObjectType members) =
      Checked.value (decode_record (Value.kObjectType members)) := by
  simp only [extract, decode_record, maybe_string_object, maybe_int_object, maybe_double_object]
  generalize List.lookup "symbol" members = a
  generalize List.lookup "side" members = b
  generalize List.lookup "size" members = c
  generalize List.lookup "price" members = d
  rcases a with _ | a
  · simp
  cases a <;> try simp
  rcases b with _ | b
  · simp
  cases b <;> try simp
  rcases c with _ | c
  · simp
  cases c <;> try simp
  rename_i n
  by_cases hn : n.IsInt = true
  · rcases d with _ | d
    · simp [hn]
    cases d <;> try simp [hn]
    rename_i m
    cases m <;> simp [hn]
  · rcases d with _ | d
    · simp [hn]
    cases d <;> try simp [hn]
    rename_i m
    cases m <;> simp [hn]

/-- On an element that is not an object, the first extraction fails the assertion of
`FindMember`. -/
theorem extract_not_object (element : Value) (h : element.IsObject = false) :
    extract element = Checked.assertion_failed := by
  cases element <;> simp_all [extract, maybe_string, Value.FindMember, Value.IsObject]


/-- The loop of `parse_msg` on a client with a registered callback: the callback is called
on `calls`, and the run ends as `ending` says. -/
theorem loop_some {σ : Type} (f : Trade → σ → σ) (elements : List Value) (env : σ) :
    parse_msg.loop (Client.mk (some f)) elements env =
      ⟨deliver f (calls elements) env, ending elements⟩ := by
  induction elements generalizing env with
  | nil => rfl
  | cons element elements ih =>
    rw [loop_cons]
    simp only [calls, ending]
    cases extract element with
    | assertion_failed => rfl
    | value r =>
      cases r with
      | none => exact ih env
      | some t => simpa [deliver] using ih (f t env)

/-- The loop of `parse_msg` on a client without a callback: the environment is unchanged,
and the run ends at the first call. -/
theorem loop_none {σ : Type} (elements : List Value) (env : σ) :
    parse_msg.loop (Client.mk none) elements env =
      ⟨env, if calls elements = [] then ending elements else Status.bad_function_call⟩ := by
  induction elements with
  | nil => rfl
  | cons element elements ih =>
    rw [loop_cons]
    simp only [calls, ending]
    cases extract element with
    | assertion_failed => simp
    | value r =>
      cases r with
      | none => simpa using ih
      | some t => simp

/-- The member function `parse_msg` is its three guards followed by its loop. -/
theorem parse_msg_route {σ : Type} (c : Client σ) (msg : String) (env : σ) :
    c.parse_msg msg env =
      match route msg with
      | Route.over status => ⟨env, status⟩
      | Route.loop elements => parse_msg.loop c elements env := by
  simp only [Client.parse_msg, route]
  repeat' split
  all_goals simp_all

/-- On an envelope the three guards of `parse_msg` pass, and the loop runs on the elements
of `data`. -/
theorem route_envelope (msg : String) (elements : List Value)
    (h : envelope msg = some elements) : route msg = Route.loop elements := by
  simp only [envelope] at h
  simp only [route]
  split at h
  · rename_i members hdoc
    rw [hdoc]
    simp only [Value.FindMember]
    split at h
    · rename_i t es ht hd
      simp only [Option.some.injEq] at h
      subst h
      simp [ht, hd, Value.IsString, Value.IsArray]
    · simp at h
  · simp at h

/-- On elements that are all objects, the calls of the loop are the filter-map of the
record decoder, and the loop returns. -/
theorem calls_objects (elements : List Value) (h : ∀ e ∈ elements, e.IsObject = true) :
    calls elements = elements.filterMap decode_record ∧ ending elements = Status.returned := by
  induction elements with
  | nil => exact ⟨rfl, rfl⟩
  | cons element elements ih =>
    have he : element.IsObject = true := h element (List.mem_cons_self _ _)
    have ih := ih (fun e hmem => h e (List.mem_cons_of_mem _ hmem))
    cases element with
    | kObjectType members =>
      simp only [calls, ending, extract_object, List.filterMap_cons]
      cases decode_record (Value.kObjectType members) with
      | none => exact ih
      | some t => exact ⟨by rw [ih.1], ih.2⟩
    | _ => simp [Value.IsObject] at he

/-- The recording callback appends the calls to the log. -/
theorem deliver_record (trades log : List Trade) :
    deliver (fun t log => log ++ [t]) trades log = log ++ trades := by
  induction trades generalizing log with
  | nil => simp [deliver]
  | cons t trades ih =>
    have := ih (log ++ [t])
    simp only [deliver, List.foldl_cons] at this ⊢
    simpa using this

/-- The decoder where every element of `data` is a JSON object, which is where the code
does what C1 says. On a client with a registered callback `f`, for every message that is
an envelope (an object with a string `table` and an array `data`) whose elements of
`data` are all JSON objects, `parse_msg` returns after calling `f` once for each element
that has a string `symbol`, a string `side`, an integer `size` and a floating-point
`price`, with these four as arguments, in array order, and for no other element: the
sequence of invocations is the filter-map of the record decoder over `data`. -/
theorem parse_msg_decodes {σ : Type} (f : Trade → σ → σ) (msg : String)
    (elements : List Value) (env : σ) (henv : envelope msg = some elements)
    (hobj : ∀ e ∈ elements, e.IsObject = true) :
    (Client.mk (some f)).parse_msg msg env =
        ⟨deliver f (elements.filterMap decode_record) env, Status.returned⟩ ∧
      invocations msg = elements.filterMap decode_record := by
  have h := calls_objects elements hobj
  constructor
  · rw [parse_msg_route, route_envelope msg elements henv]
    simp only [loop_some, h.1, h.2]
  · simp only [invocations, record, parse_msg_route, route_envelope msg elements henv,
      loop_some, h.1, deliver_record, List.nil_append]

/-- The trade message of the specification yields exactly one invocation, with
`("XBTUSD", "Buy", 100, 50000.5)`. -/
theorem parse_msg_decodes_witness :
    invocations msg_trade = [trade_XBTUSD] ∧ trade_XBTUSD.price.value = 50000.5 ∧
      ((Client.mk record).parse_msg msg_trade []).status = Status.returned := by
  have h := parse_msg_decodes (fun t log => log ++ [t]) msg_trade
    [Value.kObjectType [("symbol", Value.kStringType "XBTUSD"),
      ("side", Value.kStringType "Buy"), ("size", Value.kNumberType (Number.uint 100)),
      ("price", Value.kNumberType (Number.double ⟨false, 500005, -1⟩))]] [] (by rfl)
    (by simp [Value.IsObject])
  refine ⟨h.2.trans (by decide), ?_, ?_⟩
  · simp only [trade_XBTUSD, Double.value]
    norm_num
  · simp only [record]
    rw [h.1]

/-- C1, the code at the failing input: `msg_number_then_trade` is an envelope whose second
element of `data` has a string `symbol`, a string `side`, an integer `size` and a
floating-point `price`, so that the record decoder over `data` gives one trade, the call
that C1 says is made; `parse_msg` makes no call and ends in the assertion of `FindMember`,
which the lookup of `symbol` in the number 1 in front of the record fails. -/
theorem parse_msg_decodes_not_for_number :
    envelope msg_number_then_trade = some [Value.kNumberType (Number.uint 1),
        Value.kObjectType [("symbol", Value.kStringType "XBTUSD"),
          ("side", Value.kStringType "Buy"), ("size", Value.kNumberType (Number.uint 100)),
          ("price", Value.kNumberType (Number.double ⟨false, 500005, -1⟩))]] ∧
      List.filterMap decode_record [Value.kNumberType (Number.uint 1),
        Value.kObjectType [("symbol", Value.kStringType "XBTUSD"),
          ("side", Value.kStringType "Buy"), ("size", Value.kNumberType (Number.uint 100)),
          ("price", Value.kNumberType (Number.double ⟨false, 500005, -1⟩))]] = [trade_XBTUSD] ∧
      invocations msg_number_then_trade = [] ∧
      ((Client.mk record).parse_msg msg_number_then_trade []).status =
        Status.assertion_failed := by
  refine ⟨rfl, by decide, by decide, by decide⟩

end bitmex.websocket

/-! ## The decoder: missing callback, malformed input, registration -/

namespace bitmex.websocket
open rapidjson

/-- With a registered callback the loop never ends in `std::bad_function_call`. -/
theorem ending_ne_bad_function_call (elements : List Value) :
    ending elements ≠ Status.bad_function_call := by
  induction elements with
  | nil => simp [ending]
  | cons element elements ih =>
    simp only [ending]
    cases extract element with
    | assertion_failed => simp
    | value r => exact ih

/-- The guards of `parse_msg` never end in `std::bad_function_call`. -/
theorem route_over_ne_bad_function_call (msg : String) (status : Status)
    (h : route msg = Route.over status) : status ≠ Status.bad_function_call := by
  simp only [route] at h
  repeat' split at h
  all_goals simp_all
  all_goals subst h
  all_goals simp

/-- The invocations of a message, and the end of its run, in terms of `route`, `calls` and
`ending`. -/
theorem invocations_route (msg : String) :
    invocations msg =
        (match route msg with
        | Route.over _ => []
        | Route.loop elements => calls elements) ∧
      ((Client.mk record).parse_msg msg []).status =
        (match route msg with
        | Route.over status => status
        | Route.loop elements => ending elements) := by
  simp only [invocations, record, parse_msg_route]
  cases route msg with
  | over status => exact ⟨rfl, rfl⟩
  | loop elements => simp [loop_some, deliver_record]

/-- C4 (amended). On a client on which `on_trade` has never been called, `parse_msg`
leaves the environment unchanged for every message; it completes without failure exactly
when the message, given to a client with a registered callback, would complete without
an invocation, and it ends in `std::bad_function_call` exactly when the message would
produce an invocation. -/
theorem parse_msg_without_callback {σ : Type} (msg : String) (env : σ) :
    (({} : Client σ).parse_msg msg env).env = env ∧
      ((({} : Client σ).parse_msg msg env).status = Status.returned ↔
        invocations msg = [] ∧
          ((Client.mk record).parse_msg msg []).status = Status.returned) ∧
      ((({} : Client σ).parse_msg msg env).status = Status.bad_function_call ↔
        invocations msg ≠ []) := by
  have hi := invocations_route msg
  rw [hi.1, hi.2, parse_msg_route]
  cases hr : route msg with
  | over status =>
    have := route_over_ne_bad_function_call msg status hr
    simp [this]
  | loop elements =>
    have := ending_ne_bad_function_call elements
    simp only [loop_none]
    by_cases hc : calls elements = []
    · simp [hc, this]
    · simp [hc]

/-- C4, counterexample: on a client without a callback the trade message of the
specification does not complete; the call of the empty `std::function` ends the run. -/
theorem parse_msg_without_callback_throws :
    (({} : Client Unit).parse_msg msg_trade ()).status = Status.bad_function_call := by
  decide


/-- The calls and the end of the loop on `xs ++ ys`: those of `xs`, followed by those of
`ys` if the loop on `xs` returns. -/
theorem calls_append (xs ys : List Value) :
    calls (xs ++ ys) = (if ending xs = Status.returned then calls xs ++ calls ys else calls xs) ∧
      ending (xs ++ ys) = (if ending xs = Status.returned then ending ys else ending xs) := by
  induction xs with
  | nil => simp [calls, ending]
  | cons x xs ih =>
    simp only [List.cons_append, calls, ending]
    cases extract x with
    | assertion_failed => simp
    | value r =>
      cases r with
      | none => exact ih
      | some t =>
        refine ⟨?_, ih.2⟩
        by_cases he : ending xs = Status.returned
        · simp [ih.1, he]
        · simp [ih.1, he]

/-- An object that the record decoder rejects adds no call and does not end the loop. -/
theorem calls_skip (x : Value) (ys : List Value) (hx : x.IsObject = true)
    (hnone : decode_record x = none) :
    calls (x :: ys) = calls ys ∧ ending (x :: ys) = ending ys := by
  cases x with
  | kObjectType members => simp [calls, ending, extract_object, hnone]
  | _ => simp [Value.IsObject] at hx

/-- Delivering `xs ++ ys` is delivering `xs`, then `ys`. -/
theorem deliver_append {σ : Type} (f : Trade → σ → σ) (xs ys : List Trade) (env : σ) :
    deliver f (xs ++ ys) env = deliver f ys (deliver f xs env) := by
  simp [deliver, List.foldl_append]

/-- Partial-failure isolation among JSON objects, which is where the code does what C5
says. On a client with a registered callback, for envelopes with the data arrays `xs`, `ys`, `xs ++ ys` and
`xs ++ bad :: ys`, where `bad` is an object that lacks or mistypes one of the four
fields: inserting `bad` leaves the run unchanged, and if the elements of `xs` are objects
the run on `xs ++ ys` is the run on `xs` followed by the run on `ys`. -/
theorem parse_msg_isolates_failures {σ : Type} (f : Trade → σ → σ) (xs ys : List Value)
    (bad : Value) (m₁ m₂ m m' : String) (env : σ)
    (h₁ : envelope m₁ = some xs) (h₂ : envelope m₂ = some ys)
    (h : envelope m = some (xs ++ ys)) (h' : envelope m' = some (xs ++ bad :: ys))
    (hbad : bad.IsObject = true) (hnone : decode_record bad = none) :
    (Client.mk (some f)).parse_msg m' env = (Client.mk (some f)).parse_msg m env ∧
      invocations m' = invocations m ∧
      ((∀ e ∈ xs, e.IsObject = true) →
        (Client.mk (some f)).parse_msg m env =
            (Client.mk (some f)).parse_msg m₂ ((Client.mk (some f)).parse_msg m₁ env).env ∧
          invocations m = invocations m₁ ++ invocations m₂) := by
  have a := calls_append xs ys
  have b := calls_append xs (bad :: ys)
  have s := calls_skip bad ys hbad hnone
  rw [s.1, s.2] at b
  have hi := fun msg => (invocations_route msg).1
  refine ⟨?_, ?_, fun hxs => ?_⟩
  · simp only [parse_msg_route, route_envelope _ _ h, route_envelope _ _ h', loop_some,
      a.1, a.2, b.1, b.2]
  · simp only [hi, route_envelope _ _ h, route_envelope _ _ h', a.1, b.1]
  · have e₁ := (calls_objects xs hxs).2
    rw [if_pos e₁] at a
    rw [if_pos e₁] at a
    simp only [hi, parse_msg_route, route_envelope _ _ h₁, route_envelope _ _ h₂,
      route_envelope _ _ h, loop_some, a.1, a.2, deliver_append, and_self]

/-- A data array whose first element lacks `price` and whose second element is
well-formed yields exactly one invocation, for the second element; a further element
without `symbol` between the two changes nothing. -/
theorem parse_msg_isolates_failures_witness :
    invocations msg_no_price_then_trade = [trade_XBTUSD] ∧
      invocations msg_trade_size_trade = invocations msg_no_price_then_trade := by
  have h := parse_msg_isolates_failures (fun t log => log ++ [t])
    [Value.kObjectType [("symbol", Value.kStringType "ETHUSD"),
      ("side", Value.kStringType "Sell"), ("size", Value.kNumberType (Number.uint 7))]]
    [Value.kObjectType [("symbol", Value.kStringType "XBTUSD"),
      ("side", Value.kStringType "Buy"), ("size", Value.kNumberType (Number.uint 100)),
      ("price", Value.kNumberType (Number.double ⟨false, 500005, -1⟩))]]
    (Value.kObjectType [("size", Value.kNumberType (Number.uint 1))])
    msg_no_price msg_trade msg_no_price_then_trade msg_trade_size_trade []
    (by rfl) (by rfl) (by rfl) (by rfl) (by rfl) (by decide)
  refine ⟨?_, h.2.1⟩
  rw [(h.2.2 (by simp [Value.IsObject])).2]
  decide

/-- C5, the code at the failing input: the number 1 has none of the four fields, and C5
says that it is skipped without a change to what is emitted for the other elements; put
before the well-formed record of the trade message it changes the invocations from one to
none, and `parse_msg` ends in the assertion of `FindMember` instead of returning. -/
theorem parse_msg_number_not_isolated :
    invocations msg_trade = [trade_XBTUSD] ∧ invocations msg_number_then_trade = [] ∧
      envelope msg_number_then_trade =
        (envelope msg_trade).map (fun ys => Value.kNumberType (Number.uint 1) :: ys) ∧
      decode_record (Value.kNumberType (Number.uint 1)) = none ∧
      ((Client.mk record).parse_msg msg_trade []).status = Status.returned ∧
      ((Client.mk record).parse_msg msg_number_then_trade []).status =
        Status.assertion_failed := by
  refine ⟨by decide, by decide, by rfl, by rfl, by decide, by decide⟩


/-- On a document that is not an object, the lookup of `table` fails the assertion of
`FindMember`, whatever the client and the environment. -/
theorem parse_msg_document_not_object {σ : Type} (c : Client σ) (msg : String) (env : σ)
    (doc : Value) (hdoc : Document.Parse (c_str msg.data) = Except.ok doc)
    (hobj : doc.IsObject = false) :
    c.parse_msg msg env = ⟨env, Status.assertion_failed⟩ := by
  have hr : route msg = Route.over Status.assertion_failed := by
    simp only [route, hdoc]
    cases doc <;> simp_all [Value.FindMember, Value.IsObject]
  rw [parse_msg_route, hr]

/-- On a client with a registered callback, the loop of `parse_msg` ends at the first
element that is not an object: the objects before it are decoded, the elements after it
are not reached. -/
theorem loop_element_not_object {σ : Type} (f : Trade → σ → σ) (xs ys : List Value)
    (element : Value) (env : σ) (hxs : ∀ e ∈ xs, e.IsObject = true)
    (hobj : element.IsObject = false) :
    parse_msg.loop (Client.mk (some f)) (xs ++ element :: ys) env =
      ⟨deliver f (xs.filterMap decode_record) env, Status.assertion_failed⟩ := by
  have a := calls_append xs (element :: ys)
  have hx := calls_objects xs hxs
  rw [if_pos hx.2] at a
  rw [if_pos hx.2] at a
  have he := extract_not_object element hobj
  simp only [loop_some, a.1, a.2, calls, ending, he, hx.1, List.append_nil]

/-- C6, the code at the failing input: `msg_number` is an envelope whose `data` holds the
number 1, and `parse_msg` ends in the assertion of `FindMember` instead of skipping the
element; with a string in front of a well-formed record the record is never reached. -/
theorem parse_msg_aborts_on_non_object_element :
    envelope msg_number = some [Value.kNumberType (Number.uint 1)] ∧
      ((Client.mk record).parse_msg msg_number []).status = Status.assertion_failed ∧
      ((Client.mk record).parse_msg msg_string_then_trade []).status =
        Status.assertion_failed ∧
      invocations msg_string_then_trade = [] := by
  refine ⟨by rfl, by decide, by decide, by decide⟩

/-- C7, the code at the failing inputs: the texts `42`, `"x"`, `null` and `[1,2]` parse
without error, and `parse_msg` ends in the assertion of `FindMember` on the document
instead of returning. -/
theorem parse_msg_aborts_on_non_object_document :
    Document.Parse (c_str "42".data) = Except.ok (Value.kNumberType (Number.uint 42)) ∧
      ((Client.mk record).parse_msg "42" []).status = Status.assertion_failed ∧
      ((Client.mk record).parse_msg "\"x\"" []).status = Status.assertion_failed ∧
      ((Client.mk record).parse_msg "null" []).status = Status.assertion_failed ∧
      ((Client.mk record).parse_msg "[1,2]" []).status = Status.assertion_failed := by
  refine ⟨by rfl, by decide, by decide, by decide, by decide⟩

/-- C8 (amended). For every text whose part before the first NUL character, which is
what `c_str()` hands to the parser, is not syntactically valid JSON, `parse_msg` returns
normally without invoking the callback, on every client. -/
theorem parse_msg_parse_error {σ : Type} (c : Client σ) (msg : String) (env : σ)
    (h : valid_json (c_str msg.data) = false) :
    c.parse_msg msg env = ⟨env, Status.returned⟩ ∧ invocations msg = [] := by
  have hr : route msg = Route.over Status.returned := by
    simp only [valid_json] at h
    simp only [route]
    split
    · rfl
    · rename_i doc hdoc
      rw [hdoc] at h
      simp at h
  exact ⟨by rw [parse_msg_route, hr], by rw [(invocations_route msg).1, hr]⟩

/-- C8, witness: the text `not json`. -/
theorem parse_msg_parse_error_witness :
    valid_json "not json".data = false ∧
      ((Client.mk record).parse_msg "not json" []).status = Status.returned ∧
      invocations "not json" = [] := by
  have h := parse_msg_parse_error (Client.mk record) "not json" [] (by decide)
  exact ⟨by decide, by rw [h.1], h.2⟩

/-- C8, counterexample: the trade message followed by a NUL character and a closing
bracket is not syntactically valid JSON, yet `parse_msg`, which reads up to the NUL,
invokes the callback. -/
theorem parse_msg_reads_up_to_nul :
    valid_json msg_trade_nul.data = false ∧ invocations msg_trade_nul = [trade_XBTUSD] := by
  refine ⟨by decide, by decide⟩

/-- C9. For every message that parses to a JSON object in which `table` is absent or not
a string, or `data` is absent or not an array, `parse_msg` returns normally without
invoking the callback, on every client and whatever else the object contains. -/
theorem parse_msg_not_envelope {σ : Type} (c : Client σ) (msg : String) (env : σ)
    (members : List (String × Value))
    (hdoc : Document.Parse (c_str msg.data) = Except.ok (Value.kObjectType members))
    (h : (¬ ∃ table, members.lookup "table" = some (Value.kStringType table)) ∨
      (¬ ∃ elements, members.lookup "data" = some (Value.kArrayType elements))) :
    c.parse_msg msg env = ⟨env, Status.returned⟩ ∧ invocations msg = [] := by
  have hr : route msg = Route.over Status.returned := by
    simp only [route, hdoc, Value.FindMember]
    cases ht : members.lookup "table" with
    | none => rfl
    | some table =>
      cases table with
      | kStringType t =>
        have hd : ¬ ∃ elements, members.lookup "data" = some (Value.kArrayType elements) := by
          rcases h with h | h
          · exact absurd ⟨t, ht⟩ h
          · exact h
        cases hdata : members.lookup "data" with
        | none => simp [Value.IsString]
        | some data =>
          cases data with
          | kArrayType elements => exact absurd ⟨elements, hdata⟩ hd
          | _ => simp [Value.IsString, Value.IsArray]
      | _ => simp [Value.IsString]
  exact ⟨by rw [parse_msg_route, hr], by rw [(invocations_route msg).1, hr]⟩

/-- C9, witness: a message without `table` whose `data` holds a well-formed record. -/
theorem parse_msg_not_envelope_witness :
    ((Client.mk record).parse_msg msg_no_table []).status = Status.returned ∧
      invocations msg_no_table = [] := by
  have h := parse_msg_not_envelope (Client.mk record) msg_no_table []
    [("data", Value.kArrayType [Value.kObjectType [("symbol", Value.kStringType "XBTUSD"),
      ("side", Value.kStringType "Buy"), ("size", Value.kNumberType (Number.uint 100)),
      ("price", Value.kNumberType (Number.double ⟨false, 500005, -1⟩))]])]
    (by rfl) (Or.inl (by simp [List.lookup]))
  exact ⟨by rw [h.1], h.2⟩

end bitmex.websocket

/-! ## The reader: integer literals and the range of a stored `int` -/

namespace rapidjson

/-- The value of a digit is at most 9, and the comparisons of a digit with the
characters 8 and 5 are those of its value with the numbers. -/
theorem digit_facts (c : Char) (h : '0' ≤ c ∧ c ≤ '9') :
    digit c ≤ 9 ∧ (c > '8' ↔ 8 < digit c) ∧ (c > '5' ↔ 5 < digit c) := by
  obtain ⟨h0, h9⟩ := h
  have e0 : ('0' : Char).toNat = 48 := rfl
  have e9 : ('9' : Char).toNat = 57 := rfl
  have e8 : ('8' : Char).toNat = 56 := rfl
  have e5 : ('5' : Char).toNat = 53 := rfl
  have a : ('0' : Char).toNat ≤ c.toNat := h0
  have b : c.toNat ≤ ('9' : Char).toNat := h9
  have hd : digit c = c.toNat - ('0' : Char).toNat := rfl
  rw [e0] at a hd
  rw [e9] at b
  refine ⟨by omega, ⟨fun g => ?_, fun g => ?_⟩, ⟨fun g => ?_, fun g => ?_⟩⟩
  · have g8 : ('8' : Char).toNat < c.toNat := g
    omega
  · have g8 : ('8' : Char).toNat < c.toNat := by omega
    exact g8
  · have g5 : ('5' : Char).toNat < c.toNat := g
    omega
  · have g5 : ('5' : Char).toNat < c.toNat := by omega
    exact g5

/-- A decimal digit is a character from 0 to 9. -/
theorem is_digit_iff (c : Char) : is_digit c = true ↔ '0' ≤ c ∧ c ≤ '9' := by
  simp [is_digit]

/-- A stream that does not go on with a digit starts with none. -/
theorem no_digit_next_cons (c : Char) (s : List Char) (h : no_digit_next (c :: s) = true) :
    ¬('0' ≤ c ∧ c ≤ '9') := by
  intro hc
  have := (is_digit_iff c).mpr hc
  simp [no_digit_next, this] at h

/-- Reading digits after a number does not give a smaller number. -/
theorem decimal_ge (n : Nat) (s : List Char) : n ≤ decimal n s := by
  induction s generalizing n with
  | nil => exact Nat.le_refl _
  | cons c s ih =>
    have h1 := ih (n * 10 + digit c)
    have h2 : decimal n (c :: s) = decimal (n * 10 + digit c) s := rfl
    rw [h2]
    have h3 : n ≤ n * 10 + digit c :=
      Nat.le_trans (Nat.le_mul_of_pos_right n (by decide)) (Nat.le_add_right _ _)
    exact Nat.le_trans h3 h1

/-- In a text of digits the first character is a digit, and the rest is a text of
digits. -/
theorem all_digits_cons (c : Char) (ds : List Char) (h : (c :: ds).all is_digit = true) :
    ('0' ≤ c ∧ c ≤ '9') ∧ ds.all is_digit = true := by
  simp only [List.all_cons, Bool.and_eq_true] at h
  exact ⟨(is_digit_iff c).mp h.1, h.2⟩

/-- The test that ends a loop of `ParseNumber` before the digit `d` would take `i` beyond
the bound `b`, as a comparison of numbers: `t` is the bound without its last digit `l`. -/
theorem stop_iff (t l b i d : Nat) (hb : b = t * 10 + l) (hd : d ≤ 9) (hl : l ≤ 9) :
    (i ≥ t ∧ (i ≠ t ∨ l < d)) ↔ b < i * 10 + d := by
  subst hb
  omega

/-- The first loop of `ParseNumber` on digits: it holds the whole number if that does not
pass the bound of `i`, and otherwise stops before the digit that would pass it. -/
theorem loop32_digits (minus : Bool) (ds rest : List Char) (i : Nat)
    (hds : ds.all is_digit = true) (hrest : no_digit_next rest = true)
    (hi : i ≤ bound32 minus) :
    (decimal i ds ≤ bound32 minus →
        ParseNumber.loop32 minus i (ds ++ rest) = (decimal i ds, false, rest)) ∧
      (bound32 minus < decimal i ds →
        ∃ i1 c ds1, ParseNumber.loop32 minus i (ds ++ rest) = (i1, true, c :: ds1 ++ rest) ∧
          decimal i1 (c :: ds1) = decimal i ds ∧ i1 ≤ bound32 minus ∧
          bound32 minus < i1 * 10 + digit c ∧ (c :: ds1).all is_digit = true) := by
  induction ds generalizing i with
  | nil =>
    refine ⟨fun _ => ?_, fun h => absurd h (Nat.not_lt.mpr hi)⟩
    cases rest with
    | nil => rfl
    | cons c s =>
      have hc : ¬('0' ≤ c ∧ c ≤ '9') := no_digit_next_cons c s hrest
      rw [List.nil_append, ParseNumber.loop32, if_neg hc]
      rfl
  | cons c ds ih =>
    obtain ⟨hc, hds'⟩ := all_digits_cons c ds hds
    have hd := digit_facts c hc
    have hstop : (if minus = true then
          i ≥ 214748364 ∧ (i ≠ 214748364 ∨ c > '8')
        else i ≥ 429496729 ∧ (i ≠ 429496729 ∨ c > '5')) ↔
        bound32 minus < i * 10 + digit c := by
      cases minus with
      | true =>
        simp only [if_true, bound32, hd.2.1]
        exact stop_iff 214748364 8 _ i _ rfl hd.1 (by decide)
      | false =>
        simp only [Bool.false_eq_true, if_false, bound32, hd.2.2]
        exact stop_iff 429496729 5 _ i _ rfl hd.1 (by decide)
    have hb : bound32 minus < 2 ^ 32 := by cases minus <;> simp [bound32]
    have hunfold : ParseNumber.loop32 minus i (c :: ds ++ rest) =
        if bound32 minus < i * 10 + digit c then (i, true, c :: ds ++ rest)
        else ParseNumber.loop32 minus ((i * 10 + digit c) % 2 ^ 32) (ds ++ rest) := by
      simp only [List.cons_append, ParseNumber.loop32, if_pos hc]
      cases minus with
      | true =>
        simp only [if_true] at hstop ⊢
        by_cases h : bound32 true < i * 10 + digit c
        · rw [if_pos (hstop.mpr h), if_pos h]
          rfl
        · rw [if_neg (mt hstop.mp h), if_neg h]
          rfl
      | false =>
        simp only [Bool.false_eq_true, if_false] at hstop ⊢
        by_cases h : bound32 false < i * 10 + digit c
        · rw [if_pos (hstop.mpr h), if_pos h]
          rfl
        · rw [if_neg (mt hstop.mp h), if_neg h]
          rfl
    have hdec : decimal i (c :: ds) = decimal (i * 10 + digit c) ds := rfl
    rw [hunfold, hdec]
    by_cases hover : bound32 minus < i * 10 + digit c
    · rw [if_pos hover]
      refine ⟨fun h => ?_, fun _ => ⟨i, c, ds, rfl, rfl, hi, hover, hds⟩⟩
      exact absurd (Nat.lt_of_lt_of_le hover (decimal_ge _ _)) (Nat.not_lt.mpr h)
    · have hle := Nat.le_of_not_lt hover
      rw [if_neg hover, Nat.mod_eq_of_lt (Nat.lt_of_le_of_lt hle hb)]
      exact ih (i * 10 + digit c) hds' hle

/-- The second loop of `ParseNumber` on digits: it holds the whole number if that does not
pass the bound of `i64`, and otherwise stops before the digit that would pass it. -/
theorem loop64_digits (minus : Bool) (ds rest : List Char) (i : Nat)
    (hds : ds.all is_digit = true) (hrest : no_digit_next rest = true)
    (hi : i ≤ bound64 minus) :
    (decimal i ds ≤ bound64 minus →
        ParseNumber.loop64 minus i (ds ++ rest) = (decimal i ds, false, rest)) ∧
      (bound64 minus < decimal i ds →
        ∃ i1 c ds1, ParseNumber.loop64 minus i (ds ++ rest) = (i1, true, c :: ds1 ++ rest) ∧
          decimal i1 (c :: ds1) = decimal i ds ∧ i1 ≤ bound64 minus ∧
          bound64 minus < i1 * 10 + digit c ∧ (c :: ds1).all is_digit = true) := by
  induction ds generalizing i with
  | nil =>
    refine ⟨fun _ => ?_, fun h => absurd h (Nat.not_lt.mpr hi)⟩
    cases rest with
    | nil => rfl
    | cons c s =>
      have hc : ¬('0' ≤ c ∧ c ≤ '9') := no_digit_next_cons c s hrest
      rw [List.nil_append, ParseNumber.loop64, if_neg hc]
      rfl
  | cons c ds ih =>
    obtain ⟨hc, hds'⟩ := all_digits_cons c ds hds
    have hd := digit_facts c hc
    have hstop : (if minus = true then
          i ≥ 0x0CCCCCCCCCCCCCCC ∧ (i ≠ 0x0CCCCCCCCCCCCCCC ∨ c > '8')
        else i ≥ 0x1999999999999999 ∧ (i ≠ 0x1999999999999999 ∨ c > '5')) ↔
        bound64 minus < i * 10 + digit c := by
      cases minus with
      | true =>
        simp only [if_true, bound64, hd.2.1]
        exact stop_iff 0x0CCCCCCCCCCCCCCC 8 _ i _ (by norm_num) hd.1 (by decide)
      | false =>
        simp only [Bool.false_eq_true, if_false, bound64, hd.2.2]
        exact stop_iff 0x1999999999999999 5 _ i _ (by norm_num) hd.1 (by decide)
    have hb : bound64 minus < 2 ^ 64 := by cases minus <;> simp [bound64]
    have hunfold : ParseNumber.loop64 minus i (c :: ds ++ rest) =
        if bound64 minus < i * 10 + digit c then (i, true, c :: ds ++ rest)
        else ParseNumber.loop64 minus ((i * 10 + digit c) % 2 ^ 64) (ds ++ rest) := by
      simp only [List.cons_append, ParseNumber.loop64, if_pos hc]
      cases minus with
      | true =>
        simp only [if_true] at hstop ⊢
        by_cases h : bound64 true < i * 10 + digit c
        · rw [if_pos (hstop.mpr h), if_pos h]
          rfl
        · rw [if_neg (mt hstop.mp h), if_neg h]
          rfl
      | false =>
        simp only [Bool.false_eq_true, if_false] at hstop ⊢
        by_cases h : bound64 false < i * 10 + digit c
        · rw [if_pos (hstop.mpr h), if_pos h]
          rfl
        · rw [if_neg (mt hstop.mp h), if_neg h]
          rfl
    have hdec : decimal i (c :: ds) = decimal (i * 10 + digit c) ds := rfl
    rw [hunfold, hdec]
    by_cases hover : bound64 minus < i * 10 + digit c
    · rw [if_pos hover]
      refine ⟨fun h => ?_, fun _ => ⟨i, c, ds, rfl, rfl, hi, hover, hds⟩⟩
      exact absurd (Nat.lt_of_lt_of_le hover (decimal_ge _ _)) (Nat.not_lt.mpr h)
    · have hle := Nat.le_of_not_lt hover
      rw [if_neg hover, Nat.mod_eq_of_lt (Nat.lt_of_le_of_lt hle hb)]
      exact ih (i * 10 + digit c) hds' hle

/-- The third loop of `ParseNumber` on digits: unless the number is too big, it holds the
whole number. -/
theorem loopDouble_digits (ds rest : List Char) (d : Nat) (r : Nat × List Char)
    (hds : ds.all is_digit = true) (hrest : no_digit_next rest = true)
    (h : ParseNumber.loopDouble d (ds ++ rest) = some r) : r = (decimal d ds, rest) := by
  induction ds generalizing d with
  | nil =>
    cases rest with
    | nil =>
      rw [List.nil_append, ParseNumber.loopDouble] at h
      exact (Option.some.inj h).symm
    | cons c s =>
      have hc : ¬('0' ≤ c ∧ c ≤ '9') := no_digit_next_cons c s hrest
      rw [List.nil_append, ParseNumber.loopDouble, if_neg hc] at h
      exact (Option.some.inj h).symm
  | cons c ds ih =>
    obtain ⟨hc, hds'⟩ := all_digits_cons c ds hds
    rw [List.cons_append, ParseNumber.loopDouble, if_pos hc] at h
    by_cases hbig : d ≥ DBL_MAX_DIV_10
    · rw [if_pos hbig] at h
      exact absurd h (by simp)
    · rw [if_neg hbig] at h
      exact ih _ hds' h

/-- An integer literal is the digit 0 alone, or a digit from 1 to 9 and digits after it. -/
theorem int_literal_cases (digits : List Char) (h : int_literal digits = true) :
    digits = ['0'] ∨
      ∃ c ds, digits = c :: ds ∧ ('1' ≤ c ∧ c ≤ '9') ∧ ds.all is_digit = true := by
  cases digits with
  | nil => simp [int_literal] at h
  | cons c ds =>
    simp only [int_literal, Bool.or_eq_true, Bool.and_eq_true, beq_iff_eq, List.isEmpty_iff,
      decide_eq_true_eq] at h
    rcases h with ⟨h0, hnil⟩ | ⟨h19, hds⟩
    · left
      rw [h0, hnil]
    · right
      exact ⟨c, ds, rfl, h19, hds⟩

/-- A digit from 1 to 9 is neither the character 0 nor the minus sign, and its value is
from 1 to 9. -/
theorem digit_first (c : Char) (h : '1' ≤ c ∧ c ≤ '9') :
    c ≠ '0' ∧ c ≠ '-' ∧ ('0' ≤ c ∧ c ≤ '9') ∧ 1 ≤ digit c ∧ digit c ≤ 9 := by
  obtain ⟨h1, h9⟩ := h
  have e1 : ('1' : Char).toNat = 49 := rfl
  have e9 : ('9' : Char).toNat = 57 := rfl
  have e0 : ('0' : Char).toNat = 48 := rfl
  have em : ('-' : Char).toNat = 45 := rfl
  have a : ('1' : Char).toNat ≤ c.toNat := h1
  have b : c.toNat ≤ ('9' : Char).toNat := h9
  have hd : digit c = c.toNat - ('0' : Char).toNat := rfl
  rw [e1] at a
  rw [e9] at b
  rw [e0] at hd
  have g0 : ('0' : Char).toNat ≤ c.toNat := by rw [e0]; omega
  refine ⟨?_, ?_, ⟨g0, h9⟩, by omega, by omega⟩
  · intro h
    rw [h, e0] at a
    omega
  · intro h
    rw [h, em] at a
    omega

/-- The integer part of a number: `ParseNumber` reads an integer literal into `i` if the
number is within the bound of `i`, into `i64` if it is within the bound of `i64`, and
into `d` otherwise, unless it is too big for a `double`; then it goes on with what
follows. -/
theorem unsigned_digits (minus : Bool) (digits rest : List Char)
    (hl : int_literal digits = true) (hr : no_digit_next rest = true) :
    (decimal 0 digits ≤ bound32 minus →
        ParseNumber.unsigned minus (digits ++ rest) =
          ParseNumber.tail minus (decimal 0 digits) false false rest) ∧
      (bound32 minus < decimal 0 digits → decimal 0 digits ≤ bound64 minus →
        ParseNumber.unsigned minus (digits ++ rest) =
          ParseNumber.tail minus (decimal 0 digits) true false rest) ∧
      (bound64 minus < decimal 0 digits →
        ParseNumber.unsigned minus (digits ++ rest) =
            ParseNumber.tail minus (decimal 0 digits) true true rest ∨
          ParseNumber.unsigned minus (digits ++ rest) =
            Parsed.error ParseErrorCode.kParseErrorNumberTooBig) := by
  have hb32 : 9 ≤ bound32 minus := by cases minus <;> simp [bound32]
  have hb : bound32 minus ≤ bound64 minus := by cases minus <;> simp [bound32, bound64]
  rcases int_literal_cases digits hl with h0 | ⟨c, ds, hd, hc, hds⟩
  · subst h0
    have hv : decimal 0 ['0'] = 0 := rfl
    rw [hv]
    have hu : ParseNumber.unsigned minus (['0'] ++ rest) =
        ParseNumber.tail minus 0 false false rest := by
      simp only [List.cons_append, List.nil_append, ParseNumber.unsigned, if_true]
    refine ⟨fun _ => hu, fun h => ?_, fun h => ?_⟩
    · exact absurd h (Nat.not_lt_zero _)
    · exact absurd h (Nat.not_lt_zero _)
  · subst hd
    obtain ⟨hne0, _, hdig, h1, h9⟩ := digit_first c hc
    have hv : decimal 0 (c :: ds) = decimal (digit c) ds := by
      have : decimal 0 (c :: ds) = decimal (0 * 10 + digit c) ds := rfl
      rw [this, Nat.zero_mul, Nat.zero_add]
    rw [hv]
    have hu : ParseNumber.unsigned minus (c :: ds ++ rest) =
        match ParseNumber.loop32 minus (digit c) (ds ++ rest) with
        | (i, false, s2) => ParseNumber.tail minus i false false s2
        | (i, true, s2) =>
          match ParseNumber.loop64 minus i s2 with
          | (i64, false, s3) => ParseNumber.tail minus i64 true false s3
          | (i64, true, s3) =>
            match ParseNumber.loopDouble i64 s3 with
            | some (d, s4) => ParseNumber.tail minus d true true s4
            | none => Parsed.error ParseErrorCode.kParseErrorNumberTooBig := by
      simp only [List.cons_append, ParseNumber.unsigned, if_neg hne0, if_pos hc]
    rw [hu]
    have h32 := loop32_digits minus ds rest (digit c) hds hr (Nat.le_trans h9 hb32)
    by_cases hv32 : decimal (digit c) ds ≤ bound32 minus
    · rw [h32.1 hv32]
      refine ⟨fun _ => rfl, fun h => absurd h (Nat.not_lt.mpr hv32), fun h => ?_⟩
      exact absurd (Nat.lt_of_le_of_lt hb h) (Nat.not_lt.mpr hv32)
    · obtain ⟨i1, c1, ds1, hl32, hdec1, hi1, _, hds1⟩ := h32.2 (Nat.lt_of_not_le hv32)
      rw [hl32]
      have h64 := loop64_digits minus (c1 :: ds1) rest i1 hds1 hr (Nat.le_trans hi1 hb)
      rw [hdec1] at h64
      by_cases hv64 : decimal (digit c) ds ≤ bound64 minus
      · refine ⟨fun h => absurd h hv32, fun _ _ => ?_, fun h => absurd h (Nat.not_lt.mpr hv64)⟩
        simp only [h64.1 hv64]
      · obtain ⟨i2, c2, ds2, hl64, hdec2, _, _, hds2⟩ := h64.2 (Nat.lt_of_not_le hv64)
        refine ⟨fun h => absurd h hv32, fun _ h => absurd h hv64, fun _ => ?_⟩
        simp only [hl64]
        cases hld : ParseNumber.loopDouble i2 (c2 :: ds2 ++ rest) with
        | none => right; rfl
        | some r =>
          have := loopDouble_digits (c2 :: ds2) rest i2 r hds2 hr hld
          rw [hdec2] at this
          subst this
          left
          rfl

/-- The negation `~i + 1` of a magnitude of at most 2^31, read as an `int`, is its negative. -/
theorem toInt32_neg (n : Nat) (h : n ≤ 2147483648) :
    toInt32 (2 ^ 32 - 1 - n + 1) = -(n : Int) := by
  simp only [toInt32]
  norm_num
  by_cases h0 : n = 0
  · subst h0
    norm_num
  · have e : (4294967295 - n + 1) % 4294967296 = 4294967296 - n := by
      rw [Nat.mod_eq_of_lt (by omega)]
      omega
    rw [e]
    have hlt : ¬(4294967296 - n < 2147483648) := by omega
    rw [if_neg hlt]
    omega

/-- The negation `~i64 + 1` of a magnitude of at most 2^63, read as an `int64_t`, is its
negative. -/
theorem toInt64_neg (n : Nat) (h : n ≤ 9223372036854775808) :
    toInt64 (2 ^ 64 - 1 - n + 1) = -(n : Int) := by
  simp only [toInt64]
  norm_num
  by_cases h0 : n = 0
  · subst h0
    norm_num
  · have e : (18446744073709551615 - n + 1) % 18446744073709551616 =
        18446744073709551616 - n := by
      rw [Nat.mod_eq_of_lt (by omega)]
      omega
    rw [e]
    have hlt : ¬(18446744073709551616 - n < 9223372036854775808) := by omega
    rw [if_neg hlt]
    omega

/-- A stream after an integer: it goes on with no digit, and is empty or starts with a
character other than the point and the exponent marks. -/
theorem ends_number_cases (rest : List Char) (h : ends_number rest = true) :
    no_digit_next rest = true ∧
      (rest = [] ∨ ∃ c s, rest = c :: s ∧ c ≠ '.' ∧ c ≠ 'e' ∧ c ≠ 'E') := by
  cases rest with
  | nil => exact ⟨rfl, Or.inl rfl⟩
  | cons c s =>
    simp only [ends_number, Bool.and_eq_true, bne_iff_ne, ne_eq] at h
    exact ⟨by simp only [no_digit_next]; exact h.1.1.1, Or.inr ⟨c, s, rfl, h.1.1.2, h.1.2, h.2⟩⟩

/-- A stream that goes on with a fraction or an exponent: it goes on with no digit and
starts with the point or an exponent mark. -/
theorem fraction_or_exponent_cases (rest : List Char)
    (h : fraction_or_exponent_next rest = true) :
    no_digit_next rest = true ∧
      ∃ c s, rest = c :: s ∧ (c = '.' ∨ c = 'e' ∨ c = 'E') := by
  cases rest with
  | nil => simp [fraction_or_exponent_next] at h
  | cons c s =>
    simp only [fraction_or_exponent_next, Bool.or_eq_true, beq_iff_eq] at h
    refine ⟨?_, c, s, rfl, ?_⟩
    · have hd : ∀ x : Char, (x = '.' ∨ x = 'e') ∨ x = 'E' → is_digit x = false := by
        intro x hx
        rcases hx with (hx | hx) | hx <;> subst hx <;> decide
      simp only [no_digit_next, hd c h, Bool.not_false]
    · rcases h with (h | h) | h
      · exact Or.inl h
      · exact Or.inr (Or.inl h)
      · exact Or.inr (Or.inr h)

/-- A number stored as `double` at its end is a `double`. -/
theorem done_double (minus : Bool) (d : Nat) (f e : Int) (s : List Char) (m : Number)
    (r : List Char) (h : ParseNumber.done minus d f e s = Parsed.ok m r) :
    m = Number.double ⟨minus, d, e + f⟩ ∧ r = s := by
  simp only [ParseNumber.done] at h
  split at h
  · simp at h
  · simp only [Parsed.ok.injEq] at h
    exact ⟨h.1.symm, h.2.symm⟩

/-- A number with an exponent is stored as a `double`. -/
theorem exponentDigits_double (minus : Bool) (d : Nat) (f : Int) (b : Bool) (s : List Char)
    (m : Number) (r : List Char)
    (h : ParseNumber.exponentDigits minus d f b s = Parsed.ok m r) :
    ∃ x, m = Number.double x := by
  cases s with
  | nil => simp [ParseNumber.exponentDigits] at h
  | cons c s =>
    simp only [ParseNumber.exponentDigits] at h
    split at h
    · split at h
      · exact ⟨_, (done_double _ _ _ _ _ _ _ h).1⟩
      · split at h
        · exact ⟨_, (done_double _ _ _ _ _ _ _ h).1⟩
        · simp at h
    · simp at h

/-- A number that `finishDouble` ends is stored as a `double`. -/
theorem finishDouble_double (minus : Bool) (d : Nat) (f : Int) (s : List Char)
    (m : Number) (r : List Char)
    (h : ParseNumber.finishDouble minus d f s = Parsed.ok m r) :
    ∃ x, m = Number.double x := by
  unfold ParseNumber.finishDouble at h
  split at h
  · unfold ParseNumber.exponent at h
    split at h <;> exact exponentDigits_double _ _ _ _ _ _ _ h
  · unfold ParseNumber.exponent at h
    split at h <;> exact exponentDigits_double _ _ _ _ _ _ _ h
  · exact ⟨_, (done_double _ _ _ _ _ _ _ h).1⟩

/-- A number with a fraction or an exponent is stored as `double`. -/
theorem tail_fraction (minus : Bool) (n : Nat) (b64 bd : Bool) (rest : List Char)
    (hr : fraction_or_exponent_next rest = true) (m : Number) (r : List Char)
    (h : ParseNumber.tail minus n b64 bd rest = Parsed.ok m r) :
    ∃ x, m = Number.double x := by
  obtain ⟨_, c, s, hrest, hc⟩ := fraction_or_exponent_cases rest hr
  subst hrest
  rcases hc with hc | hc | hc
  · subst hc
    simp only [ParseNumber.tail] at h
    split at h
    · simp at h
    · split at h
      · exact finishDouble_double _ _ _ _ _ _ h
      · simp at h
  · subst hc
    simp only [ParseNumber.tail] at h
    exact finishDouble_double _ _ _ _ _ _ h
  · subst hc
    simp only [ParseNumber.tail] at h
    exact finishDouble_double _ _ _ _ _ _ h

/-- A number that ends after its integer part is stored as an integer if `i` or `i64`
holds it, and as `double` otherwise. -/
theorem tail_ends (minus : Bool) (n : Nat) (b64 bd : Bool) (rest : List Char)
    (hr : ends_number rest = true) :
    ParseNumber.tail minus n b64 bd rest =
      if bd then ParseNumber.done minus n 0 0 rest
      else if b64 then
        if minus then Parsed.ok (Number.int64 (toInt64 (2 ^ 64 - 1 - n + 1))) rest
        else Parsed.ok (Number.uint64 n) rest
      else
        if minus then Parsed.ok (Number.int (toInt32 (2 ^ 32 - 1 - n + 1))) rest
        else Parsed.ok (Number.uint n) rest := by
  have hfin : ParseNumber.finishDouble minus n 0 rest = ParseNumber.done minus n 0 0 rest := by
    rcases (ends_number_cases rest hr).2 with h | ⟨c, s, h, _, h2, h3⟩
    · subst h
      rfl
    · subst h
      unfold ParseNumber.finishDouble
      split
      · rename_i heq
        simp only [List.cons.injEq] at heq
        exact absurd heq.1 h2
      · rename_i heq
        simp only [List.cons.injEq] at heq
        exact absurd heq.1 h3
      · rfl
  rcases (ends_number_cases rest hr).2 with h | ⟨c, s, h, h1, h2, h3⟩
  · subst h
    unfold ParseNumber.tail
    simp only [hfin]
  · subst h
    unfold ParseNumber.tail
    split
    · rename_i heq
      simp only [List.cons.injEq] at heq
      exact absurd heq.1 h1
    · rename_i heq
      simp only [List.cons.injEq] at heq
      exact absurd heq.1 h2
    · rename_i heq
      simp only [List.cons.injEq] at heq
      exact absurd heq.1 h3
    · simp only [hfin]

/-- After the sign of an integer literal `ParseNumber` reads its digits. -/
theorem ParseNumber_sign (minus : Bool) (digits rest : List Char)
    (hl : int_literal digits = true) :
    ParseNumber (sign minus ++ digits ++ rest) = ParseNumber.unsigned minus (digits ++ rest) := by
  cases minus with
  | true => rfl
  | false =>
    have hne : ∃ c ds, digits = c :: ds ∧ c ≠ '-' := by
      rcases int_literal_cases digits hl with h0 | ⟨c, ds, hd, hc, _⟩
      · exact ⟨'0', [], h0, by decide⟩
      · exact ⟨c, ds, hd, (digit_first c hc).2.1⟩
    obtain ⟨c, ds, hd, hc⟩ := hne
    subst hd
    simp only [sign, Bool.false_eq_true, if_false, List.nil_append, List.cons_append]
    unfold ParseNumber
    split
    · rename_i heq
      simp only [List.cons.injEq] at heq
      exact absurd heq.1 hc
    · rfl

/-- An integer literal within the bounds of `i64` is stored as an integer, `ParseNumber`
ending where the literal ends. -/
theorem ParseNumber_integer (minus : Bool) (digits rest : List Char)
    (hl : int_literal digits = true) (hr : ends_number rest = true)
    (hv : decimal 0 digits ≤ bound64 minus) :
    ParseNumber (sign minus ++ digits ++ rest) =
      Parsed.ok (stored_integer minus (decimal 0 digits)) rest := by
  rw [ParseNumber_sign minus digits rest hl]
  have hu := unsigned_digits minus digits rest hl (ends_number_cases rest hr).1
  generalize decimal 0 digits = v at hu hv ⊢
  by_cases h32 : v ≤ bound32 minus
  · rw [hu.1 h32, tail_ends minus v false false rest hr]
    cases minus with
    | true =>
      simp only [bound32, if_true] at h32
      simp only [Bool.false_eq_true, if_false, if_true, stored_integer, if_pos h32,
        toInt32_neg v h32]
    | false =>
      simp only [bound32, Bool.false_eq_true, if_false] at h32
      simp only [Bool.false_eq_true, if_false, stored_integer, if_pos h32]
  · rw [hu.2.1 (Nat.lt_of_not_le h32) hv, tail_ends minus v true false rest hr]
    cases minus with
    | true =>
      simp only [bound32, if_true] at h32
      simp only [bound64, if_true] at hv
      simp only [Bool.false_eq_true, if_false, if_true, stored_integer, if_neg h32,
        toInt64_neg v hv]
    | false =>
      simp only [bound32, Bool.false_eq_true, if_false] at h32
      simp only [Bool.false_eq_true, if_false, if_true, stored_integer, if_neg h32]

/-- An integer literal beyond the bounds of `i64` is stored as `double`, unless it is too
big for one. -/
theorem ParseNumber_big_integer (minus : Bool) (digits rest : List Char)
    (hl : int_literal digits = true) (hr : ends_number rest = true)
    (hv : bound64 minus < decimal 0 digits) (m : Number) (r : List Char)
    (h : ParseNumber (sign minus ++ digits ++ rest) = Parsed.ok m r) :
    m = Number.double ⟨minus, decimal 0 digits, 0⟩ ∧ r = rest := by
  rw [ParseNumber_sign minus digits rest hl] at h
  have hu := unsigned_digits minus digits rest hl (ends_number_cases rest hr).1
  rcases hu.2.2 hv with hu | hu
  · rw [hu, tail_ends minus _ true true rest hr] at h
    simp only [if_true] at h
    exact done_double _ _ _ _ _ _ _ h
  · rw [hu] at h
    simp at h

/-- A number written with a fraction or an exponent is stored as `double`. -/
theorem ParseNumber_fraction (minus : Bool) (digits rest : List Char)
    (hl : int_literal digits = true) (hr : fraction_or_exponent_next rest = true)
    (m : Number) (r : List Char)
    (h : ParseNumber (sign minus ++ digits ++ rest) = Parsed.ok m r) :
    ∃ x, m = Number.double x := by
  rw [ParseNumber_sign minus digits rest hl] at h
  have hu := unsigned_digits minus digits rest hl (fraction_or_exponent_cases rest hr).1
  by_cases h32 : decimal 0 digits ≤ bound32 minus
  · rw [hu.1 h32] at h
    exact tail_fraction _ _ _ _ rest hr m r h
  · by_cases h64 : decimal 0 digits ≤ bound64 minus
    · rw [hu.2.1 (Nat.lt_of_not_le h32) h64] at h
      exact tail_fraction _ _ _ _ rest hr m r h
    · rcases hu.2.2 (Nat.lt_of_not_le h64) with hu | hu
      · rw [hu] at h
        exact tail_fraction _ _ _ _ rest hr m r h
      · rw [hu] at h
        simp at h

/-- An `int` is within the range of `int`. -/
theorem toInt32_range (u : Nat) : -2147483648 ≤ toInt32 u ∧ toInt32 u < 2147483648 := by
  simp only [toInt32]
  norm_num
  have h := Nat.mod_lt u (show 0 < 4294967296 by decide)
  split <;> omega

/-- An `int` that the end of `ParseNumber` stores is within the range of `int`. -/
theorem tail_fits (minus : Bool) (n : Nat) (b64 bd : Bool) (s : List Char) (m : Number)
    (r : List Char) (h : ParseNumber.tail minus n b64 bd s = Parsed.ok m r) : m.fits := by
  have hdouble : ∀ d f s1, ParseNumber.finishDouble minus d f s1 = Parsed.ok m r → m.fits := by
    intro d f s1 hf
    obtain ⟨x, hx⟩ := finishDouble_double _ _ _ _ _ _ hf
    rw [hx]
    exact True.intro
  unfold ParseNumber.tail at h
  split at h
  · split at h
    · simp at h
    · split at h
      · exact hdouble _ _ _ h
      · simp at h
  · exact hdouble _ _ _ h
  · exact hdouble _ _ _ h
  · split at h
    · exact hdouble _ _ _ h
    · split at h
      · split at h <;>
          (simp only [Parsed.ok.injEq] at h
           rw [← h.1]
           exact True.intro)
      · split at h
        · simp only [Parsed.ok.injEq] at h
          rw [← h.1]
          exact toInt32_range _
        · simp only [Parsed.ok.injEq] at h
          rw [← h.1]
          exact True.intro

/-- An `int` that `ParseNumber` stores is within the range of `int`. -/
theorem ParseNumber_fits (s : List Char) (m : Number) (r : List Char)
    (h : ParseNumber s = Parsed.ok m r) : m.fits := by
  have hu : ∀ minus s0, ParseNumber.unsigned minus s0 = Parsed.ok m r → m.fits := by
    intro minus s0 h0
    cases s0 with
    | nil => simp [ParseNumber.unsigned] at h0
    | cons c s1 =>
      simp only [ParseNumber.unsigned] at h0
      repeat' split at h0
      all_goals first
        | exact tail_fits _ _ _ _ _ _ _ h0
        | simp at h0
  unfold ParseNumber at h
  split at h <;> exact hu _ _ h

/-- A property of the elements of a list holds after one more element with it is put at
the end. -/
theorem fits_append {α : Type} (p : α → Prop) (xs : List α) (x : α) (h : ∀ a ∈ xs, p a)
    (hx : p x) : ∀ a ∈ xs ++ [x], p a := by
  intro a ha
  rcases List.mem_append.mp ha with h1 | h1
  · exact h a h1
  · rw [List.mem_singleton.mp h1]
    exact hx

/-- Every `int` that the reader stores is within the range of `int`. -/
theorem ParseValue_fits (fuel : Nat) :
    (∀ s v r, ParseValue fuel s = Parsed.ok v r → v.fits) ∧
    (∀ members s v r, (∀ m ∈ members, Value.fits m.2) →
      ParseObject.loop fuel members s = Parsed.ok v r → v.fits) ∧
    (∀ elements s v r, (∀ e ∈ elements, Value.fits e) →
      ParseArray.loop fuel elements s = Parsed.ok v r → v.fits) := by
  induction fuel with
  | zero =>
    refine ⟨fun s v r h => ?_, fun _ s v r _ h => ?_, fun _ s v r _ h => ?_⟩
    · simp [ParseValue] at h
    · simp [ParseObject.loop] at h
    · simp [ParseArray.loop] at h
  | succ fuel ih =>
    obtain ⟨ihv, iho, iha⟩ := ih
    refine ⟨fun s v r h => ?_, fun members s v r hm h => ?_, fun elements s v r he h => ?_⟩
    · unfold ParseValue at h
      split at h
      · unfold ParseNull at h
        split at h
        · simp only [Parsed.ok.injEq] at h
          rw [← h.1]
          exact Value.fits.null
        · simp at h
      · unfold ParseTrue at h
        split at h
        · simp only [Parsed.ok.injEq] at h
          rw [← h.1]
          exact Value.fits.yes
        · simp at h
      · unfold ParseFalse at h
        split at h
        · simp only [Parsed.ok.injEq] at h
          rw [← h.1]
          exact Value.fits.no
        · simp at h
      · unfold ParseString at h
        split at h
        · simp only [Parsed.ok.injEq] at h
          rw [← h.1]
          exact Value.fits.string _
        · simp at h
        · simp at h
      · split at h
        · simp only [Parsed.ok.injEq] at h
          rw [← h.1]
          exact Value.fits.object [] (by simp)
        · exact iho [] _ v r (by simp) h
      · split at h
        · simp only [Parsed.ok.injEq] at h
          rw [← h.1]
          exact Value.fits.array [] (by simp)
        · exact iha [] _ v r (by simp) h
      · unfold ParseValue.number at h
        split at h
        · rename_i n rest hn
          simp only [Parsed.ok.injEq] at h
          rw [← h.1]
          exact Value.fits.number n (ParseNumber_fits _ _ _ hn)
        · simp at h
        · simp at h
    · unfold ParseObject.loop at h
      split at h
      · split at h
        · rename_i name s2 _
          split at h
          · split at h
            · rename_i value s4 hv
              have hvf := ihv _ _ _ hv
              have hall := fits_append (fun m : String × Value => Value.fits m.2) members
                (name, value) hm hvf
              split at h
              · exact iho _ _ v r hall h
              · simp only [Parsed.ok.injEq] at h
                rw [← h.1]
                exact Value.fits.object _ hall
              · simp at h
            · simp at h
            · simp at h
          · simp at h
        · simp at h
        · simp at h
      · simp at h
    · unfold ParseArray.loop at h
      split at h
      · rename_i value s1 hv
        have hvf := ihv _ _ _ hv
        have hall := fits_append Value.fits elements value he hvf
        split at h
        · exact iha _ _ v r hall h
        · simp only [Parsed.ok.injEq] at h
          rw [← h.1]
          exact Value.fits.array _ hall
        · simp at h
      · simp at h
      · simp at h

/-- Every `int` stored in a parsed document is within the range of `int`. -/
theorem Document_Parse_fits (str : List Char) (doc : Value)
    (h : Document.Parse str = Except.ok doc) : doc.fits := by
  unfold Document.Parse Reader.Parse at h
  split at h
  · rename_i value rest hp
    simp only [Except.ok.injEq] at h
    subst h
    split at hp
    · simp at hp
    · split at hp
      · rename_i v r hv
        have := (ParseValue_fits _).1 _ _ _ hv
        split at hp
        · simp only [Parsed.ok.injEq] at hp
          rw [← hp.1]
          exact this
        · simp at hp
      · simp at hp
      · simp at hp
  · simp at h
  · simp at h

end rapidjson

/-! ## The encoder: injectivity -/

namespace bitmex.websocket
open rapidjson

/-- Two topics whose wire names have the same characters are the same topic. -/
theorem to_string_data_injective (t1 t2 : Topic)
    (h : (to_string t1).data = (to_string t2).data) : t1 = t2 := by
  cases t1 <;> cases t2 <;> first | rfl | exact absurd h (by decide)

/-- C11. The wire names are injective: two topics with the same wire name are the same
topic. -/
theorem to_string_injective (t1 t2 : Topic) (h : to_string t1 = to_string t2) : t1 = t2 := by
  exact to_string_data_injective t1 t2 (congrArg String.data h)

/-- C11, witness: the topic `Trade` is recovered from its wire name, and the wire names of
`OrderBookL2` and `OrderBookL2_25`, of which one begins with the other, differ. -/
theorem to_string_injective_witness :
    (to_string Topic.Trade = "trade" ∧ Topic.Trade = Topic.Trade) ∧
      to_string Topic.OrderBookL2 ≠ to_string Topic.OrderBookL2_25 := by
  refine ⟨⟨rfl, to_string_injective Topic.Trade Topic.Trade rfl⟩, fun h => ?_⟩
  exact absurd (to_string_injective Topic.OrderBookL2 Topic.OrderBookL2_25 h) (by decide)

/-- Two texts that split at a colon after colon-free parts split at the same place. -/
theorem colon_split (a b x y : List Char) (ha : ':' ∉ a) (hb : ':' ∉ b)
    (h : a ++ ':' :: x = b ++ ':' :: y) : a = b ∧ x = y := by
  induction a generalizing b with
  | nil =>
    cases b with
    | nil => simpa using h
    | cons c b =>
      simp only [List.nil_append, List.cons_append, List.cons.injEq] at h
      exact absurd (h.1 ▸ List.mem_cons_self _ _) hb
  | cons c a ih =>
    cases b with
    | nil =>
      simp only [List.nil_append, List.cons_append, List.cons.injEq] at h
      exact absurd (h.1 ▸ List.mem_cons_self _ _) ha
    | cons e b =>
      simp only [List.cons_append, List.cons.injEq] at h
      have := ih b (fun hm => ha (List.mem_cons_of_mem _ hm))
        (fun hm => hb (List.mem_cons_of_mem _ hm)) h.2
      exact ⟨by rw [h.1, this.1], this.2⟩

/-- No wire name contains a colon. -/
theorem to_string_no_colon (topic : Topic) : ':' ∉ (to_string topic).data := by
  cases topic <;> decide

/-- C16. The subscription encoder is injective: two commands are equal only for the same
topic and the same instrument, whatever characters the instruments contain. -/
theorem make_subscribe_injective (i1 i2 : String) (t1 t2 : Topic)
    (h : make_subscribe i1 t1 = make_subscribe i2 t2) : t1 = t2 ∧ i1 = i2 := by
  have hd := congrArg String.data h
  simp only [make_subscribe, String.data_append] at hd
  have h1 := List.append_cancel_right hd
  have h2 : (to_string t1).data ++ ':' :: i1.data = (to_string t2).data ++ ':' :: i2.data := by
    have h3 := h1
    simp only [List.append_assoc] at h3
    exact List.append_cancel_left h3
  have h4 := colon_split _ _ _ _ (to_string_no_colon t1) (to_string_no_colon t2) h2
  exact ⟨to_string_data_injective t1 t2 h4.1, String.ext h4.2⟩

/-- C16, witness: the command for XBTUSD on the trade topic determines both, and an
instrument with a colon and a quotation mark in it does not make two commands equal. -/
theorem make_subscribe_injective_witness :
    (Topic.Trade = Topic.Trade ∧ "XBTUSD" = "XBTUSD") ∧
      make_subscribe "Bin1m:\"X" Topic.Quote ≠ make_subscribe "\"X" Topic.QuoteBin1m := by
  refine ⟨make_subscribe_injective "XBTUSD" "XBTUSD" Topic.Trade Topic.Trade rfl, fun h => ?_⟩
  exact absurd (make_subscribe_injective _ _ _ _ h).1 (by decide)

end bitmex.websocket

/-! ## The decoder: calls in sequence -/

namespace bitmex.websocket
open rapidjson

/-- Where the first call does not return, no second call is made: after a message whose
`data` holds the number 1, on which the first call ends in the assertion of `FindMember`,
the sequence ends there and the trade message is not decoded. -/
theorem parse_msg_sequence_stops :
    (followed_by ((Client.mk record).parse_msg msg_number [])
        ((Client.mk record).parse_msg msg_trade)).env = [] ∧
      (followed_by ((Client.mk record).parse_msg msg_number [])
        ((Client.mk record).parse_msg msg_trade)).status = Status.assertion_failed ∧
      invocations msg_number ++ invocations msg_trade = [trade_XBTUSD] := by
  refine ⟨by decide, by decide, by decide⟩

end bitmex.websocket

/-! ## The decoder: what does not influence it -/

namespace bitmex.websocket
open rapidjson

/-- A member of another name does not change what `FindMember` finds. -/
theorem lookup_insert_ne (name key : String) (value : Value)
    (before after : List (String × Value)) (h : key ≠ name) :
    (before ++ (key, value) :: after).lookup name = (before ++ after).lookup name := by
  induction before with
  | nil =>
    have hb : (name == key) = false := by
      simp only [beq_eq_false_iff_ne, ne_eq]
      exact fun e => h e.symm
    simp [List.lookup, hb]
  | cons m before ih =>
    obtain ⟨k, v⟩ := m
    simp only [List.cons_append, List.lookup]
    cases name == k with
    | true => rfl
    | false => exact ih

/-- What `FindMember` finds for the name of an inserted member: an earlier member of that
name, or else the inserted one. -/
theorem lookup_insert_same (key : String) (value : Value)
    (before after : List (String × Value)) :
    (before ++ (key, value) :: after).lookup key =
      match before.lookup key with
      | some found => some found
      | none => some value := by
  induction before with
  | nil => simp [List.lookup]
  | cons m before ih =>
    obtain ⟨k, v⟩ := m
    simp only [List.cons_append, List.lookup]
    cases key == k with
    | true => rfl
    | false => exact ih

/-- The guards of `parse_msg` on a document that is an object, in terms of its first
members `table` and `data`. -/
theorem route_object (msg : String) (members : List (String × Value))
    (h : Document.Parse (c_str msg.data) = Except.ok (Value.kObjectType members)) :
    route msg =
      match members.lookup "table", members.lookup "data" with
      | some (Value.kStringType _), some (Value.kArrayType elements) => Route.loop elements
      | _, _ => Route.over Status.returned := by
  simp only [route, h, Value.FindMember]
  cases members.lookup "table" with
  | none => rfl
  | some table =>
    cases table with
    | kStringType t =>
      cases members.lookup "data" with
      | none => rfl
      | some data => cases data <;> simp [Value.IsString, Value.IsArray]
    | _ => simp [Value.IsString]

/-- The loop of `parse_msg` depends on an element through its four extractions only. -/
theorem loop_congr {σ : Type} (c : Client σ) (xs ys : List Value) (e e' : Value) (env : σ)
    (h : extract e = extract e') :
    parse_msg.loop c (xs ++ e :: ys) env = parse_msg.loop c (xs ++ e' :: ys) env := by
  induction xs generalizing env with
  | nil => simp only [List.nil_append, loop_cons, h]
  | cons x xs ih =>
    simp only [List.cons_append, loop_cons]
    cases extract x with
    | assertion_failed => rfl
    | value r =>
      cases r with
      | none => exact ih env
      | some t =>
        cases c._on_trade with
        | none => rfl
        | some target => exact ih (target t env)

/-- C13. The value of `table` does not influence decoding: two messages that parse to
objects which differ only in the string that a member `table` holds give the same run of
`parse_msg`, on every client, and the same invocations. -/
theorem table_value_ignored {σ : Type} (c : Client σ) (m1 m2 : String) (env : σ)
    (before after : List (String × Value)) (t1 t2 : String)
    (h1 : Document.Parse (c_str m1.data) =
      Except.ok (Value.kObjectType (before ++ ("table", Value.kStringType t1) :: after)))
    (h2 : Document.Parse (c_str m2.data) =
      Except.ok (Value.kObjectType (before ++ ("table", Value.kStringType t2) :: after))) :
    c.parse_msg m1 env = c.parse_msg m2 env ∧ invocations m1 = invocations m2 := by
  have hr : route m1 = route m2 := by
    rw [route_object m1 _ h1, route_object m2 _ h2]
    rw [lookup_insert_ne "data" "table" _ before after (by decide),
      lookup_insert_ne "data" "table" _ before after (by decide),
      lookup_insert_same, lookup_insert_same]
    cases before.lookup "table" with
    | some found => rfl
    | none =>
      simp only
      cases (before ++ after).lookup "data" with
      | none => rfl
      | some data => cases data <;> rfl
  exact ⟨by rw [parse_msg_route, parse_msg_route, hr],
    by rw [(invocations_route m1).1, (invocations_route m2).1, hr]⟩

/-- C13, witness: the trade message with `quote` for its `table` gives the invocation of
the trade message. -/
theorem table_value_ignored_witness :
    invocations msg_quote = invocations msg_trade ∧ invocations msg_quote = [trade_XBTUSD] := by
  have h := table_value_ignored (Client.mk record) msg_quote msg_trade [] []
    [("data", Value.kArrayType [Value.kObjectType [("symbol", Value.kStringType "XBTUSD"),
      ("side", Value.kStringType "Buy"), ("size", Value.kNumberType (Number.uint 100)),
      ("price", Value.kNumberType (Number.double ⟨false, 500005, -1⟩))]])]
    "quote" "trade" (by rfl) (by rfl)
  exact ⟨h.2, h.2.trans (by decide)⟩

/-- A member of a record whose name is none of the four does not change what the round
extracts from the record. -/
theorem extract_insert (key : String) (value : Value) (before after : List (String × Value))
    (h1 : key ≠ "symbol") (h2 : key ≠ "side") (h3 : key ≠ "size") (h4 : key ≠ "price") :
    extract (Value.kObjectType (before ++ (key, value) :: after)) =
      extract (Value.kObjectType (before ++ after)) := by
  simp only [extract_object, decode_record, lookup_insert_ne _ key value before after h1,
    lookup_insert_ne _ key value before after h2, lookup_insert_ne _ key value before after h3,
    lookup_insert_ne _ key value before after h4]

/-- C17. Unknown fields are ignored. A member added to the envelope under a name that is
neither `table` nor `data`, and a member added to a record under a name that is none of
`symbol`, `side`, `size`, `price`, leave the run of `parse_msg` unchanged, on every
client, and with it the sequence of invocations. -/
theorem unknown_fields_ignored {σ : Type} (c : Client σ) (m m' : String) (env : σ)
    (key : String) (value : Value) (before after : List (String × Value))
    (xs ys : List Value) :
    (Document.Parse (c_str m.data) = Except.ok (Value.kObjectType (before ++ after)) →
      Document.Parse (c_str m'.data) =
        Except.ok (Value.kObjectType (before ++ (key, value) :: after)) →
      key ≠ "table" → key ≠ "data" →
      c.parse_msg m' env = c.parse_msg m env ∧ invocations m' = invocations m) ∧
    (envelope m = some (xs ++ Value.kObjectType (before ++ after) :: ys) →
      envelope m' = some (xs ++ Value.kObjectType (before ++ (key, value) :: after) :: ys) →
      key ≠ "symbol" → key ≠ "side" → key ≠ "size" → key ≠ "price" →
      c.parse_msg m' env = c.parse_msg m env ∧ invocations m' = invocations m) := by
  constructor
  · intro h h' ht hd
    have hr : route m' = route m := by
      rw [route_object m _ h, route_object m' _ h', lookup_insert_ne _ key value before after ht,
        lookup_insert_ne _ key value before after hd]
    exact ⟨by rw [parse_msg_route, parse_msg_route, hr],
      by rw [(invocations_route m').1, (invocations_route m).1, hr]⟩
  · intro h h' h1 h2 h3 h4
    have he := extract_insert key value before after h1 h2 h3 h4
    refine ⟨?_, ?_⟩
    · rw [parse_msg_route, parse_msg_route, route_envelope _ _ h, route_envelope _ _ h']
      exact loop_congr c xs ys _ _ env he
    · simp only [invocations, parse_msg_route, route_envelope _ _ h, route_envelope _ _ h']
      rw [loop_congr (Client.mk record) xs ys _ _ [] he]

set_option maxRecDepth 100000 in
/-- C17, witness: the trade message with the member `action` added to the envelope and
then the member `trdMatchID` added to the record, as in a message of the real feed, gives
the invocation of the trade message. -/
theorem unknown_fields_ignored_witness :
    invocations msg_trade_action = invocations msg_trade ∧
      invocations msg_trade_feed = invocations msg_trade_action ∧
      invocations msg_trade_feed = [trade_XBTUSD] := by
  have h1 := (unknown_fields_ignored (Client.mk record) msg_trade msg_trade_action []
    "action" (Value.kStringType "insert") [("table", Value.kStringType "trade")]
    [("data", Value.kArrayType [Value.kObjectType [("symbol", Value.kStringType "XBTUSD"),
      ("side", Value.kStringType "Buy"), ("size", Value.kNumberType (Number.uint 100)),
      ("price", Value.kNumberType (Number.double ⟨false, 500005, -1⟩))]])] [] []).1
    (by rfl) (by rfl) (by decide) (by decide)
  have h2 := (unknown_fields_ignored (Client.mk record) msg_trade_action msg_trade_feed []
    "trdMatchID" (Value.kStringType "0")
    [("symbol", Value.kStringType "XBTUSD"), ("side", Value.kStringType "Buy"),
      ("size", Value.kNumberType (Number.uint 100)),
      ("price", Value.kNumberType (Number.double ⟨false, 500005, -1⟩))] [] [] []).2
    (by rfl) (by rfl) (by decide) (by decide) (by decide) (by decide)
  exact ⟨h1.2, h2.2, h2.2.trans (h1.2.trans (by decide))⟩

end bitmex.websocket

/-! ## The decoder: how numbers are written and how they are stored -/

namespace bitmex.websocket
open rapidjson

/-- What `FindMember` finds is the value of a member. -/
theorem lookup_mem (name : String) (members : List (String × Value)) (v : Value)
    (h : members.lookup name = some v) : ∃ m ∈ members, m.2 = v := by
  induction members with
  | nil => simp [List.lookup] at h
  | cons m members ih =>
    obtain ⟨k, w⟩ := m
    simp only [List.lookup] at h
    split at h
    · simp only [Option.some.injEq] at h
      exact ⟨(k, w), List.mem_cons_self _ _, h⟩
    · obtain ⟨m, hm, hv⟩ := ih h
      exact ⟨m, List.mem_cons_of_mem _ hm, hv⟩

/-- A round of the loop with a call has an object before it, the call is what the record
decoder gives, and its price is the `double` of the member `price`. -/
theorem extract_some (element : Value) (t : Trade)
    (h : extract element = Checked.value (some t)) :
    ∃ members, element = Value.kObjectType members ∧ decode_record element = some t := by
  cases element with
  | kObjectType members =>
    rw [extract_object] at h
    simp only [Checked.value.injEq] at h
    exact ⟨members, rfl, h⟩
  | _ => simp [extract, maybe_string, Value.FindMember] at h

/-- A record that the record decoder accepts has the four members, of the four types, and
the call has their values. -/
theorem decode_record_some (members : List (String × Value)) (t : Trade)
    (h : decode_record (Value.kObjectType members) = some t) :
    ∃ symbol side size price,
      members.lookup "symbol" = some (Value.kStringType symbol) ∧
      members.lookup "side" = some (Value.kStringType side) ∧
      members.lookup "size" = some (Value.kNumberType size) ∧
      members.lookup "price" = some (Value.kNumberType (Number.double price)) ∧
      size.IsInt = true ∧ t.size = integer_of size ∧ t.price = price ∧
      t.instrument = String.mk (c_str symbol.data) ∧ t.side = String.mk (c_str side.data) := by
  simp only [decode_record] at h
  split at h
  · rename_i symbol side size price h1 h2 h3 h4
    split at h
    · rename_i hint
      simp only [Option.some.injEq] at h
      subst h
      exact ⟨symbol, side, size, price, h1, h2, h3, h4, hint, rfl, rfl, rfl, rfl⟩
    · simp at h
  · simp at h

/-- A call of the loop comes from one of the elements. -/
theorem calls_mem (elements : List Value) (t : Trade) (h : t ∈ calls elements) :
    ∃ e ∈ elements, extract e = Checked.value (some t) := by
  induction elements with
  | nil => simp [calls] at h
  | cons element elements ih =>
    simp only [calls] at h
    cases he : extract element with
    | assertion_failed =>
      rw [he] at h
      simp at h
    | value r =>
      rw [he] at h
      cases r with
      | none =>
        obtain ⟨e, hm, hx⟩ := ih h
        exact ⟨e, List.mem_cons_of_mem _ hm, hx⟩
      | some t' =>
        simp only [List.mem_cons] at h
        rcases h with h | h
        · subst h
          exact ⟨element, List.mem_cons_self _ _, he⟩
        · obtain ⟨e, hm, hx⟩ := ih h
          exact ⟨e, List.mem_cons_of_mem _ hm, hx⟩

/-- The elements that the loop of `parse_msg` runs on are the array `data` of a parsed
document, so every `int` stored in them is within the range of `int`. -/
theorem route_fits (msg : String) (elements : List Value)
    (h : route msg = Route.loop elements) : ∀ e ∈ elements, Value.fits e := by
  cases hdoc : Document.Parse (c_str msg.data) with
  | error code => simp [route, hdoc] at h
  | ok doc =>
    have hf := Document_Parse_fits _ _ hdoc
    cases doc with
    | kObjectType members =>
      rw [route_object msg members hdoc] at h
      split at h
      · rename_i t es ht hd
        simp only [Route.loop.injEq] at h
        subst h
        obtain ⟨m, hm, hv⟩ := lookup_mem _ _ _ hd
        cases hf with
        | object _ hall =>
          have := hall m hm
          rw [hv] at this
          cases this with
          | array _ hes => exact hes
      · simp at h
    | _ => simp [route, hdoc, Value.FindMember] at h

/-- An integer with `kIntFlag` is within the range of `int`. -/
theorem integer_of_range (n : Number) (hf : n.fits) (hi : n.IsInt = true) :
    -2147483648 ≤ integer_of n ∧ integer_of n < 2147483648 := by
  cases n with
  | int i => exact hf
  | uint u =>
    simp only [Number.IsInt, decide_eq_true_eq] at hi
    simp only [integer_of]
    norm_num at hi
    omega
  | int64 i =>
    simp only [Number.IsInt, decide_eq_true_eq] at hi
    simp only [integer_of]
    norm_num at hi
    omega
  | uint64 u =>
    simp only [Number.IsInt, decide_eq_true_eq] at hi
    simp only [integer_of]
    norm_num at hi
    omega
  | double d => simp [Number.IsInt] at hi

/-- A round of the loop that extracts nothing leaves the run as it is without the
element. -/
theorem loop_skip {σ : Type} (c : Client σ) (xs ys : List Value) (e : Value) (env : σ)
    (h : extract e = Checked.value none) :
    parse_msg.loop c (xs ++ e :: ys) env = parse_msg.loop c (xs ++ ys) env := by
  induction xs generalizing env with
  | nil => simp only [List.nil_append, loop_cons, h]
  | cons x xs ih =>
    simp only [List.cons_append, loop_cons]
    cases extract x with
    | assertion_failed => rfl
    | value r =>
      cases r with
      | none => exact ih env
      | some t =>
        cases c._on_trade with
        | none => rfl
        | some target => exact ih (target t env)

/-- Every size passed to the callback is within the range of `int`, and is the integer
that the member `size` of a record stores. -/
theorem invocations_size (msg : String) (t : Trade) (h : t ∈ invocations msg) :
    (-2147483648 ≤ t.size ∧ t.size < 2147483648) ∧
      ∃ elements members size, route msg = Route.loop elements ∧
        Value.kObjectType members ∈ elements ∧
        members.lookup "size" = some (Value.kNumberType size) ∧ size.IsInt = true ∧
        t.size = integer_of size := by
  rw [(invocations_route msg).1] at h
  cases hr : route msg with
  | over status =>
    rw [hr] at h
    simp at h
  | loop elements =>
    rw [hr] at h
    simp only at h
    obtain ⟨e, hmem, hx⟩ := calls_mem elements t h
    obtain ⟨members, he, hdec⟩ := extract_some e t hx
    subst he
    obtain ⟨symbol, side, size, price, _, _, hsize, _, hint, hts, _⟩ :=
      decode_record_some members t hdec
    have hfe := route_fits msg elements hr _ hmem
    obtain ⟨m, hm, hv⟩ := lookup_mem _ _ _ hsize
    have hfn : size.fits := by
      cases hfe with
      | object _ hall =>
        have := hall m hm
        rw [hv] at this
        cases this with
        | number _ hn => exact hn
    refine ⟨?_, elements, members, size, rfl, hmem, hsize, hint, hts⟩
    rw [hts]
    exact integer_of_range size hfn hint

/-- A record whose member `price` is a number that is not stored as `double` gives no
call. -/
theorem extract_price_not_double (members : List (String × Value)) (n : Number)
    (hp : members.lookup "price" = some (Value.kNumberType n))
    (hn : (Value.kNumberType n).IsDouble = false) :
    extract (Value.kObjectType members) = Checked.value none := by
  rw [extract_object]
  cases hd : decode_record (Value.kObjectType members) with
  | none => rfl
  | some t =>
    obtain ⟨_, _, _, price, _, _, _, h4, _⟩ := decode_record_some members t hd
    rw [hp] at h4
    simp only [Option.some.injEq, Value.kNumberType.injEq] at h4
    rw [h4] at hn
    simp [Value.IsDouble] at hn

/-- A record whose member `size` is a number without `kIntFlag` gives no call. -/
theorem extract_size_not_int (members : List (String × Value)) (n : Number)
    (hs : members.lookup "size" = some (Value.kNumberType n))
    (hn : (Value.kNumberType n).IsInt = false) :
    extract (Value.kObjectType members) = Checked.value none := by
  rw [extract_object]
  cases hd : decode_record (Value.kObjectType members) with
  | none => rfl
  | some t =>
    obtain ⟨_, _, size, _, _, _, h3, _, hint, _⟩ := decode_record_some members t hd
    rw [hs] at h3
    simp only [Option.some.injEq, Value.kNumberType.injEq] at h3
    rw [h3] at hn
    simp [Value.IsInt, hint] at hn

/-- A stored integer is not a `double`, it reads as the integer written, and it has
`kIntFlag` exactly when that integer is within the range of `int`. -/
theorem stored_integer_facts (minus : Bool) (v : Nat) :
    (Value.kNumberType (stored_integer minus v)).IsDouble = false ∧
      integer_of (stored_integer minus v) = (if minus then -(v : Int) else (v : Int)) ∧
      ((stored_integer minus v).IsInt = true ↔
        (-2147483648 ≤ (if minus then -(v : Int) else (v : Int)) ∧
          (if minus then -(v : Int) else (v : Int)) < 2147483648)) := by
  cases minus with
  | true =>
    by_cases h : v ≤ 2147483648
    · simp only [stored_integer, if_true, if_pos h, Value.IsDouble, integer_of, Number.IsInt,
        true_and, true_iff]
      omega
    · simp only [stored_integer, if_true, if_neg h, Value.IsDouble, integer_of, Number.IsInt,
        true_and, decide_eq_true_eq]
      norm_num
  | false =>
    by_cases h : v ≤ 4294967295
    · simp only [stored_integer, Bool.false_eq_true, if_false, if_pos h, Value.IsDouble,
        integer_of, Number.IsInt, true_and, decide_eq_true_eq]
      norm_num
      omega
    · simp only [stored_integer, Bool.false_eq_true, if_false, if_neg h, Value.IsDouble,
        integer_of, Number.IsInt, true_and, decide_eq_true_eq]
      norm_num
      omega

/-- C14. A price written without a fraction or exponent, as an integer literal that `i64`
holds (a sign, the digits, and neither a digit, nor a fraction, nor an exponent after
them), is stored as an integer and not as `double`; a record with that price gives no
call, whatever its other members are, and the run goes on as if the record were not
there. A call is made only for a record whose price is stored as `double`. -/
theorem price_integer_skipped {σ : Type} (c : Client σ) (minus : Bool)
    (digits rest : List Char) (members : List (String × Value)) (xs ys : List Value) (env : σ)
    (hl : int_literal digits = true) (hr : ends_number rest = true)
    (hv : decimal 0 digits ≤ bound64 minus)
    (hp : members.lookup "price" =
      some (Value.kNumberType (stored_integer minus (decimal 0 digits)))) :
    ParseNumber (sign minus ++ digits ++ rest) =
        Parsed.ok (stored_integer minus (decimal 0 digits)) rest ∧
      (Value.kNumberType (stored_integer minus (decimal 0 digits))).IsDouble = false ∧
      maybe_double (Value.kObjectType members) "price" = Checked.value none ∧
      extract (Value.kObjectType members) = Checked.value none ∧
      parse_msg.loop c (xs ++ Value.kObjectType members :: ys) env =
        parse_msg.loop c (xs ++ ys) env ∧
      ∀ element t, extract element = Checked.value (some t) →
        ∃ ms, element = Value.kObjectType ms ∧
          ms.lookup "price" = some (Value.kNumberType (Number.double t.price)) := by
  have hnd := (stored_integer_facts minus (decimal 0 digits)).1
  have hx := extract_price_not_double members _ hp hnd
  refine ⟨ParseNumber_integer minus digits rest hl hr hv, hnd, ?_, hx,
    loop_skip c xs ys _ env hx, fun element t ht => ?_⟩
  · rw [maybe_double_object, hp]
    generalize stored_integer minus (decimal 0 digits) = n at hnd
    cases n <;> simp_all [Value.IsDouble]
  · obtain ⟨ms, he, hd⟩ := extract_some element t ht
    subst he
    obtain ⟨_, _, _, price, _, _, _, h4, _, _, h7, _⟩ := decode_record_some ms t hd
    exact ⟨ms, rfl, by rw [h7, h4]⟩

/-- C14, witness: the price `50000` is stored as the unsigned integer 50000, and the trade
message with that price gives no invocation; written with an exponent, `5e4`, or as the
integer 2^64, which `i64` does not hold, the price is stored as `double` and the callback
is invoked. -/
theorem price_integer_skipped_witness :
    ParseNumber "50000\x7d".data = Parsed.ok (Number.uint 50000) "\x7d".data ∧
      invocations msg_price_integer = [] ∧
      invocations msg_price_exponent = [⟨"XBTUSD", "Buy", 100, ⟨false, 5, 4⟩⟩] ∧
      invocations msg_price_big =
        [⟨"XBTUSD", "Buy", 100, ⟨false, 18446744073709551616, 0⟩⟩] := by
  have h := price_integer_skipped (Client.mk record) false "50000".data "\x7d".data
    [("symbol", Value.kStringType "XBTUSD"), ("side", Value.kStringType "Buy"),
      ("size", Value.kNumberType (Number.uint 100)),
      ("price", Value.kNumberType (Number.uint 50000))] [] [] []
    (by decide) (by decide) (by decide) (by rfl)
  exact ⟨h.1, by decide, by decide, by decide⟩

/-- C15. The size of a record, written as an integer literal (a sign, the digits, and
neither a digit, nor a fraction, nor an exponent after them): within the range of `int` it
is stored with `kIntFlag` and `maybe_int` gives the integer itself; outside that range it
is stored without `kIntFlag`, and the record gives no call. A size written with a fraction
or an exponent is stored without `kIntFlag` either, and the record gives no call. Every
size passed to the callback is within the range of `int` and is the integer that the
member `size` of a record stores. -/
theorem size_exact (minus : Bool) (digits rest : List Char)
    (hl : int_literal digits = true) (hr : ends_number rest = true) :
    (-2147483648 ≤ signed minus digits ∧ signed minus digits < 2147483648 →
        ∃ n, ParseNumber (sign minus ++ digits ++ rest) = Parsed.ok n rest ∧
          (Value.kNumberType n).IsInt = true ∧
          (Value.kNumberType n).GetInt = Checked.value (signed minus digits) ∧
          ∀ members : List (String × Value),
            members.lookup "size" = some (Value.kNumberType n) →
            maybe_int (Value.kObjectType members) "size" =
              Checked.value (some (signed minus digits))) ∧
      (¬(-2147483648 ≤ signed minus digits ∧ signed minus digits < 2147483648) →
        ∀ n r, ParseNumber (sign minus ++ digits ++ rest) = Parsed.ok n r →
          (Value.kNumberType n).IsInt = false ∧
          ∀ members : List (String × Value),
            members.lookup "size" = some (Value.kNumberType n) →
            extract (Value.kObjectType members) = Checked.value none) ∧
      (∀ after n r, fraction_or_exponent_next after = true →
        ParseNumber (sign minus ++ digits ++ after) = Parsed.ok n r →
          (Value.kNumberType n).IsInt = false ∧
          ∀ members : List (String × Value),
            members.lookup "size" = some (Value.kNumberType n) →
            extract (Value.kObjectType members) = Checked.value none) ∧
      (∀ msg t, t ∈ invocations msg →
        (-2147483648 ≤ t.size ∧ t.size < 2147483648) ∧
          ∃ elements members size, route msg = Route.loop elements ∧
            Value.kObjectType members ∈ elements ∧
            members.lookup "size" = some (Value.kNumberType size) ∧ size.IsInt = true ∧
            t.size = integer_of size) := by
  have hs : signed minus digits =
      (if minus then -(decimal 0 digits : Int) else (decimal 0 digits : Int)) := rfl
  have hf := stored_integer_facts minus (decimal 0 digits)
  rw [← hs] at hf
  refine ⟨fun hrange => ?_, fun hrange n r hp => ?_, fun after n r ha hp => ?_,
    fun msg t ht => invocations_size msg t ht⟩
  · have hv : decimal 0 digits ≤ bound64 minus := by
      rw [hs] at hrange
      generalize decimal 0 digits = v at hrange
      cases minus with
      | true =>
        simp only [if_true] at hrange
        simp only [bound64, if_true]
        omega
      | false =>
        simp only [Bool.false_eq_true, if_false] at hrange
        simp only [bound64, Bool.false_eq_true, if_false]
        omega
    have hint : (stored_integer minus (decimal 0 digits)).IsInt = true := hf.2.2.mpr hrange
    have hget := GetInt_of_IsInt _ hint
    rw [hf.2.1] at hget
    refine ⟨_, ParseNumber_integer minus digits rest hl hr hv, hint, hget, fun members hm => ?_⟩
    rw [maybe_int_object, hm]
    simp only [hint, if_true, hf.2.1]
  · have hnot : (Value.kNumberType n).IsInt = false := by
      by_cases hv : decimal 0 digits ≤ bound64 minus
      · rw [ParseNumber_integer minus digits rest hl hr hv] at hp
        simp only [Parsed.ok.injEq] at hp
        rw [← hp.1]
        have : ¬(stored_integer minus (decimal 0 digits)).IsInt = true :=
          fun h => hrange (hf.2.2.mp h)
        simpa [Value.IsInt] using this
      · have := (ParseNumber_big_integer minus digits rest hl hr (Nat.lt_of_not_le hv) n r hp).1
        rw [this]
        rfl
    exact ⟨hnot, fun members hm => extract_size_not_int members n hm hnot⟩
  · obtain ⟨x, hx⟩ := ParseNumber_fraction minus digits after hl ha n r hp
    have hnot : (Value.kNumberType n).IsInt = false := by
      rw [hx]
      rfl
    exact ⟨hnot, fun members hm => extract_size_not_int members n hm hnot⟩

/-- C15, witness: the size `3000000000` is stored without `kIntFlag` and the size `100.0`
as `double`, and the trade message with either gives no invocation; the size -2^31 is
passed as it is, and the size 2^31 gives no invocation. -/
theorem size_exact_witness :
    (∀ n r, ParseNumber "3000000000,".data = Parsed.ok n r →
        (Value.kNumberType n).IsInt = false) ∧
      (∀ n r, ParseNumber "100.0,".data = Parsed.ok n r →
        (Value.kNumberType n).IsInt = false) ∧
      (∃ n, ParseNumber "-2147483648,".data = Parsed.ok n ",".data ∧
        (Value.kNumberType n).GetInt = Checked.value (-2147483648)) ∧
      invocations msg_size_big = [] ∧ invocations msg_size_fraction = [] ∧
      invocations msg_size_over = [] ∧
      invocations msg_size_min = [⟨"XBTUSD", "Buy", -2147483648, ⟨false, 500005, -1⟩⟩] ∧
      invocations msg_trade = [⟨"XBTUSD", "Buy", 100, ⟨false, 500005, -1⟩⟩] := by
  have big := (size_exact false "3000000000".data ",".data (by decide) (by decide)).2.1
    (by decide)
  have frac := (size_exact false "100".data ",".data (by decide) (by decide)).2.2.1
    ".0,".data
  have low := (size_exact true "2147483648".data ",".data (by decide) (by decide)).1
    (by decide)
  refine ⟨fun n r h => (big n r h).1, fun n r h => (frac n r (by decide) h).1, ?_,
    by decide, by decide, by decide, by decide, by decide⟩
  obtain ⟨n, h1, _, h3, _⟩ := low
  exact ⟨n, h1, h3⟩

end bitmex.websocket
